import Mathlib

/-!
# The endpoints balancer of `loadbalancer/balancer.go`

A shallow embedding of `endpointsBalancer.addrsForServicePort` and
`endpointsBalancer.ServeHTTP`, and the properties of the resolve-select-forward
pipeline proved over it.

Conventions of the embedding.

* A Go `string` is a sequence of bytes: it is the Lean `String` with one
  character per byte, the character of code `b` for the byte `b` (`IsBytes`).
  A string of ASCII text is that text; `len` and slicing are those of the
  character list.
* `int32` values (service ports, endpoint ports) are `Int`; the single
  conversion `int32(servePort)` is the wrapping function `int32`.
* The listers, the random source, `http.NewRequest` and `http.DefaultClient.Do`
  are collaborators outside the file: they are the fields of `Env`.
* `url.URL`, its method `String`, `url.Parse` and `http.NewRequest` are library
  code; they are given here as `net/url` and `net/http` of Go 1.22 have them
  (`URL.String`, `Parse`, `NewRequest`).  The handler itself calls the
  collaborator `Env.newRequest`; what that collaborator returns is tied to
  `NewRequest` only where a statement says so.
* Every effect the handler has on the outside is recorded: the calls it makes
  are `Event`s of a trace in program order, the two summary vectors are
  per-label sample counters (`Metrics`), the response writer is explicit state.
  A Go panic is the outcome `Outcome.panicked`.
* A request built by `http.NewRequest` is its method and its parsed URL.
* `log.Printf` lines, the observed durations and the request context
  (`WithContext`) are not represented.
-/

namespace Balancer

/-! ## Data model -/

/-- The `types.NamespacedName` of apimachinery. -/
structure NamespacedName where
  Namespace : String
  Name : String
  deriving DecidableEq, Repr

/-- One entry of `svc.Spec.Ports`: the fields the balancer reads. -/
structure ServicePort where
  Name : String
  Port : Int
  deriving DecidableEq, Repr

/-- A `v1.Service`, reduced to `Spec.Ports`. -/
structure Service where
  Ports : List ServicePort
  deriving DecidableEq, Repr

/-- One entry of `subset.Addresses`. -/
structure EndpointAddress where
  IP : String
  deriving DecidableEq, Repr

/-- One entry of `subset.Ports`. -/
structure EndpointPort where
  Name : String
  Port : Int
  deriving DecidableEq, Repr

/-- One entry of `ep.Subsets`. -/
structure EndpointSubset where
  Addresses : List EndpointAddress
  Ports : List EndpointPort
  deriving DecidableEq, Repr

/-- A `v1.Endpoints`, reduced to `Subsets`. -/
structure Endpoints where
  Subsets : List EndpointSubset
  deriving DecidableEq, Repr

/-- Errors the handler can meet: one returned by a lister, the `fmt.Errorf` of
`addrsForServicePort`, one returned by the client, one returned by `url.Parse`
or `http.NewRequest`. -/
inductive Error where
  | lister (msg : String)
  | portDoesNotExist (port : Int) (svcName : NamespacedName)
  | transport (msg : String)
  | parse (msg : String)
  deriving DecidableEq, Repr

deriving instance DecidableEq for Except

/-- The `url.URL` struct, with the fields it has in Go 1.22; `User` is the
user name and the password when one is set. -/
structure URL where
  Scheme : String
  Opaque : String
  User : Option (String × Option String)
  Host : String
  Path : String
  RawPath : String
  OmitHost : Bool
  ForceQuery : Bool
  RawQuery : String
  Fragment : String
  RawFragment : String
  deriving DecidableEq, Repr

/-- The fields of the inbound `http.Request` that `ServeHTTP` reads. -/
structure Request where
  Method : String
  Host : String
  URL : URL
  deriving DecidableEq, Repr

/-- The request `http.NewRequest` returns and the client is handed: its method
and its URL (the body is `nil`). -/
structure BackendRequest where
  Method : String
  URL : URL
  deriving DecidableEq, Repr

/-- An `http.Header`: a Go map from key to value list, as its entries in the
order a `range` visits them.  A Go map holds a key once: `Header.WF`. -/
abbrev Header := List (String × List String)

/-- Keys of a Go map are pairwise distinct. -/
def Header.WF (h : Header) : Prop := (h.map Prod.fst).Nodup

/-- Map read `h[k]`, with the `ok` flag as `Option`. -/
def Header.get (h : Header) (k : String) : Option (List String) :=
  match h with
  | [] => none
  | (k', v) :: t => if k' = k then some v else Header.get t k

/-- Map write `h[k] = v`. -/
def Header.set (h : Header) (k : String) (v : List String) : Header :=
  match h with
  | [] => [(k, v)]
  | (k', v') :: t => if k' = k then (k, v) :: t else (k', v') :: Header.set t k v

/-- The `http.Response` of the backend: `Body` is what `io.Copy` reads from it. -/
structure BackendResponse where
  StatusCode : Int
  Header : Header
  Body : String
  deriving DecidableEq, Repr

/-- The `http.ResponseWriter`: the header map, the status once `WriteHeader`
was called, the bytes written. -/
structure ResponseWriter where
  header : Header
  status : Option Int
  body : String
  deriving DecidableEq, Repr

/-- The writer the server hands to the handler, over an initial header map. -/
def newResponse (h : Header) : ResponseWriter :=
  { header := h, status := none, body := "" }

/-- The first `resp.WriteHeader(code)` fixes the status; a later one is ignored. -/
def ResponseWriter.WriteHeader (w : ResponseWriter) (code : Int) : ResponseWriter :=
  match w.status with
  | none => { w with status := some code }
  | some _ => w

/-- A `resp.Write(p)` after the header was written. -/
def ResponseWriter.Write (w : ResponseWriter) (p : String) : ResponseWriter :=
  { w with body := w.body ++ p }

/-- Sample counts of the two summary vectors, per `(service, namespace)` label
values. -/
structure Metrics where
  resolveLatency : String → String → Nat
  requestLatency : String → String → Nat

/-- The call `resolveLatency.With(labels).Observe(d)`: one more sample. -/
def Metrics.observeResolve (m : Metrics) (service ns : String) : Metrics :=
  { m with resolveLatency := fun s n =>
      if s = service ∧ n = ns then m.resolveLatency s n + 1 else m.resolveLatency s n }

/-- The call `requestLatency.With(labels).Observe(d)`: one more sample. -/
def Metrics.observeRequest (m : Metrics) (service ns : String) : Metrics :=
  { m with requestLatency := fun s n =>
      if s = service ∧ n = ns then m.requestLatency s n + 1 else m.requestLatency s n }

/-- Calls the handler makes on its collaborators, in program order. -/
inductive Event where
  | getService (ns name : String)
  | getEndpoints (ns name : String)
  | randIntn (n : Int)
  | newRequest (method : String) (url : String)
  | clientDo (req : BackendRequest)
  deriving DecidableEq, Repr

/-- How a call of the handler ends. -/
inductive Outcome where
  | returned
  | panicked
  deriving DecidableEq, Repr

/-- The balancer with its two listers; a lister answers with the object or an
error (not found, for one). -/
structure endpointsBalancer where
  eps : String → String → Except Error Endpoints
  svcs : String → String → Except Error Service

/-- The collaborators of one handling: the balancer, the value the random
source draws, `http.NewRequest` on a method and a URL string, the backend. -/
structure Env where
  b : endpointsBalancer
  rnd : Nat
  newRequest : String → String → Except Error BackendRequest
  clientDo : BackendRequest → Except Error BackendResponse

/-! ## Constants and library functions -/

def baseDomain : String := ".balance.local"

def servePort : Int := 80

def MethodGet : String := "GET"

def StatusMethodNotAllowed : Int := 405
def StatusNotFound : Int := 404
def StatusServiceUnavailable : Int := 503
def StatusInternalServerError : Int := 500

/-- The conversion `int32(x)`: two's complement wrapping. -/
def int32 (x : Int) : Int := (x + 2147483648) % 4294967296 - 2147483648

/-- Go `strings.HasSuffix`:
`len(s) >= len(suffix) && s[len(s)-len(suffix):] == suffix`. -/
def HasSuffix (s suffix : String) : Bool :=
  decide (s.data.length ≥ suffix.data.length) &&
    decide (s.data.drop (s.data.length - suffix.data.length) = suffix.data)

/-- The pieces of a character list between the occurrences of `sep`. -/
def splitChars (sep : Char) : List Char → List (List Char)
  | [] => [[]]
  | c :: cs =>
    if c = sep then [] :: splitChars sep cs
    else
      match splitChars sep cs with
      | [] => [[c]]
      | h :: t => (c :: h) :: t

/-- Go `strings.Split(s, sep)` for a separator of one character: all the
substrings between separators, `Count(s, sep) + 1` of them. -/
def Split (s : String) (sep : Char) : List String :=
  (splitChars sep s.data).map String.mk

/-- Go `rand.Intn(n)`: panics (`none`) when `n <= 0`, else a value of `[0, n)`,
here the one the draw `rnd` selects. -/
def Intn (rnd : Nat) (n : Int) : Option Nat :=
  if n ≤ 0 then none else some (rnd % n.toNat)

/-- Go `strconv.Itoa`: the decimal form, with a minus sign when negative. -/
def Itoa (i : Int) : String :=
  match i with
  | Int.ofNat n => Nat.repr n
  | Int.negSucc n => "-" ++ Nat.repr (n + 1)

/-- Go `net.JoinHostPort`: `host:port`, and `[host]:port` when the host holds
a colon, as a literal IPv6 address does. -/
def JoinHostPort (host port : String) : String :=
  if ':' ∈ host.data then "[" ++ host ++ "]:" ++ port else host ++ ":" ++ port

/-! ## The library: `net/url` and `http.NewRequest` -/

/-- The escaping modes of `net/url`. -/
inductive encoding where
  | encodePath
  | encodePathSegment
  | encodeHost
  | encodeZone
  | encodeUserPassword
  | encodeQueryComponent
  | encodeFragment
  deriving DecidableEq, Repr

/-- An ASCII letter. -/
def isLetter (c : Char) : Bool :=
  decide (('a'.toNat ≤ c.toNat ∧ c.toNat ≤ 'z'.toNat) ∨
    ('A'.toNat ≤ c.toNat ∧ c.toNat ≤ 'Z'.toNat))

/-- An ASCII digit. -/
def isDigit (c : Char) : Bool :=
  decide ('0'.toNat ≤ c.toNat ∧ c.toNat ≤ '9'.toNat)

/-- The quote characters, which the source writes as character literals. -/
def apostrophe : Char := Char.ofNat 39
def doubleQuote : Char := Char.ofNat 34

/-- Go `shouldEscape(c, mode)` of `net/url`. -/
def shouldEscape (c : Char) (mode : encoding) : Bool :=
  if isLetter c ∨ isDigit c then false
  else if (mode = .encodeHost ∨ mode = .encodeZone) ∧
      c ∈ ['!', '$', '&', apostrophe, '(', ')', '*', '+', ',', ';', '=', ':', '[', ']',
        '<', '>', doubleQuote] then false
  else if c ∈ ['-', '_', '.', '~'] then false
  else if c ∈ ['$', '&', '+', ',', '/', ':', ';', '=', '?', '@'] then
    match mode with
    | .encodePath => decide (c = '?')
    | .encodePathSegment => decide (c = '/' ∨ c = ';' ∨ c = ',' ∨ c = '?')
    | .encodeUserPassword => decide (c = '@' ∨ c = '/' ∨ c = '?' ∨ c = ':')
    | .encodeQueryComponent => true
    | .encodeFragment => false
    | _ => true
  else if mode = .encodeFragment ∧ c ∈ ['!', '(', ')', '*'] then false
  else true

/-- Go `ishex`. -/
def ishex (c : Char) : Bool :=
  decide (('0'.toNat ≤ c.toNat ∧ c.toNat ≤ '9'.toNat) ∨
    ('a'.toNat ≤ c.toNat ∧ c.toNat ≤ 'f'.toNat) ∨
    ('A'.toNat ≤ c.toNat ∧ c.toNat ≤ 'F'.toNat))

/-- Go `unhex`. -/
def unhex (c : Char) : Nat :=
  if '0'.toNat ≤ c.toNat ∧ c.toNat ≤ '9'.toNat then c.toNat - '0'.toNat
  else if 'a'.toNat ≤ c.toNat ∧ c.toNat ≤ 'f'.toNat then c.toNat - 'a'.toNat + 10
  else if 'A'.toNat ≤ c.toNat ∧ c.toNat ≤ 'F'.toNat then c.toNat - 'A'.toNat + 10
  else 0

/-- The digit `"0123456789ABCDEF"[n]`. -/
def upperhex (n : Nat) : Char :=
  ['0', '1', '2', '3', '4', '5', '6', '7', '8', '9', 'A', 'B', 'C', 'D', 'E', 'F'].getD n '0'

/-- What Go `escape` writes for the byte `c`. -/
def escapeChar (mode : encoding) (c : Char) : List Char :=
  if shouldEscape c mode then
    if c = ' ' ∧ mode = .encodeQueryComponent then ['+']
    else ['%', upperhex (c.toNat / 16), upperhex (c.toNat % 16)]
  else [c]

/-- Go `escape(s, mode)`. -/
def escape (mode : encoding) (s : List Char) : List Char :=
  s.flatMap (escapeChar mode)

/-- Go `unescape(s, mode)`: the checks of its first loop and the decoding of
its second, byte by byte. -/
def unescape (mode : encoding) : List Char → Except Error (List Char)
  | [] => .ok []
  | c :: rest =>
    if c = '%' then
      match rest with
      | h1 :: h2 :: t =>
        if ¬ (ishex h1 ∧ ishex h2) then .error (Error.parse "invalid URL escape")
        else if mode = .encodeHost ∧ unhex h1 < 8 ∧ ¬ (h1 = '2' ∧ h2 = '5') then
          .error (Error.parse "invalid URL escape")
        else if mode = .encodeZone ∧ ¬ (h1 = '2' ∧ h2 = '5') ∧
            Char.ofNat (unhex h1 * 16 + unhex h2) ≠ ' ' ∧
            shouldEscape (Char.ofNat (unhex h1 * 16 + unhex h2)) .encodeHost then
          .error (Error.parse "invalid URL escape")
        else
          match unescape mode t with
          | .ok r => .ok (Char.ofNat (unhex h1 * 16 + unhex h2) :: r)
          | .error e => .error e
      | _ => .error (Error.parse "invalid URL escape")
    else if c = '+' then
      match unescape mode rest with
      | .ok r => .ok ((if mode = .encodeQueryComponent then ' ' else '+') :: r)
      | .error e => .error e
    else if (mode = .encodeHost ∨ mode = .encodeZone) ∧ c.toNat < 128 ∧
        shouldEscape c .encodeHost then
      .error (Error.parse "invalid character in host name")
    else
      match unescape mode rest with
      | .ok r => .ok (c :: r)
      | .error e => .error e

/-- Go `validEncoded(s, mode)`. -/
def validEncoded (mode : encoding) (s : List Char) : Bool :=
  s.all fun c =>
    if c ∈ ['!', '$', '&', apostrophe, '(', ')', '*', '+', ',', ';', '=', ':', '@'] then true
    else if c ∈ ['[', ']'] then true
    else if c = '%' then true
    else !shouldEscape c mode

/-- Go `strings.Cut(s, sep)` for a separator of one byte. -/
def Cut (sep : Char) : List Char → List Char × List Char × Bool
  | [] => ([], [], false)
  | c :: cs =>
    if c = sep then ([], cs, true)
    else
      match Cut sep cs with
      | (before, after, found) => (c :: before, after, found)

/-- Go `strings.Index(s, sep)` for a separator of one byte; `none` is -1. -/
def Index (sep : Char) : List Char → Option Nat
  | [] => none
  | c :: cs => if c = sep then some 0 else (Index sep cs).map (· + 1)

/-- Go `strings.LastIndex(s, sep)` for a separator of one byte; `none` is -1. -/
def LastIndex (sep : Char) : List Char → Option Nat
  | [] => none
  | c :: cs =>
    match LastIndex sep cs with
    | some i => some (i + 1)
    | none => if c = sep then some 0 else none

/-- Go `strings.Index(s, substr)`; `none` is -1. -/
def IndexString (substr : List Char) : List Char → Option Nat
  | [] => if substr = [] then some 0 else none
  | c :: cs =>
    if substr.isPrefixOf (c :: cs) then some 0 else (IndexString substr cs).map (· + 1)

/-- Go `strings.Count(s, sep)` for a separator of one byte. -/
def Count (sep : Char) (s : List Char) : Nat := s.count sep

/-- The path escaped as `EscapedPath` does. -/
def URL.EscapedPath (u : URL) : List Char :=
  if u.RawPath ≠ "" ∧ validEncoded .encodePath u.RawPath.data ∧
      unescape .encodePath u.RawPath.data = .ok u.Path.data then u.RawPath.data
  else if u.Path = "*" then ['*']
  else escape .encodePath u.Path.data

/-- The fragment escaped as `EscapedFragment` does. -/
def URL.EscapedFragment (u : URL) : List Char :=
  if u.RawFragment ≠ "" ∧ validEncoded .encodeFragment u.RawFragment.data ∧
      unescape .encodeFragment u.RawFragment.data = .ok u.Fragment.data then u.RawFragment.data
  else escape .encodeFragment u.Fragment.data

/-- Go `(*Userinfo).String`. -/
def userinfoString (ui : String × Option String) : List Char :=
  escape .encodeUserPassword ui.1.data ++
    match ui.2 with
    | some password => ':' :: escape .encodeUserPassword password.data
    | none => []

/-- The query and fragment that end the string form of a URL. -/
def URL.queryFragment (u : URL) : List Char :=
  (if u.ForceQuery ∨ u.RawQuery ≠ "" then '?' :: u.RawQuery.data else []) ++
    (if u.Fragment ≠ "" then '#' :: u.EscapedFragment else [])

/-- What `String` has in its buffer before the path is written. -/
def URL.beforePath (u : URL) : List Char :=
  (if u.Scheme ≠ "" then u.Scheme.data ++ [':'] else []) ++
  (if u.Scheme ≠ "" ∨ u.Host ≠ "" ∨ u.User ≠ none then
    if u.OmitHost ∧ u.Host = "" ∧ u.User = none then []
    else
      (if u.Host ≠ "" ∨ u.Path ≠ "" ∨ u.User ≠ none then ['/', '/'] else []) ++
      (match u.User with
        | some ui => userinfoString ui ++ ['@']
        | none => []) ++
      (if u.Host ≠ "" then escape .encodeHost u.Host.data else [])
   else []) ++
  (if u.EscapedPath ≠ [] ∧ u.EscapedPath.head? ≠ some '/' ∧ u.Host ≠ "" then ['/'] else [])

/-- Go `(*URL).String`. -/
def URL.String (u : URL) : String :=
  String.mk <|
    if u.Opaque ≠ "" then
      (if u.Scheme ≠ "" then u.Scheme.data ++ [':'] else []) ++ u.Opaque.data ++ u.queryFragment
    else
      u.beforePath ++
      (if u.beforePath = [] ∧ ':' ∈ (Cut '/' u.EscapedPath).1 then ['.', '/'] else []) ++
      u.EscapedPath ++ u.queryFragment

/-- Go `stringContainsCTLByte`. -/
def stringContainsCTLByte (s : List Char) : Bool :=
  s.any fun c => decide (c.toNat < 32 ∨ c.toNat = 127)

/-- The loop of Go `getScheme`, at index `i` with `cs` left of `rawURL`. -/
def getSchemeLoop (rawURL : List Char) : Nat → List Char → Except Error (List Char × List Char)
  | _, [] => .ok ([], rawURL)
  | i, c :: cs =>
    if isLetter c then getSchemeLoop rawURL (i + 1) cs
    else if isDigit c ∨ c = '+' ∨ c = '-' ∨ c = '.' then
      if i = 0 then .ok ([], rawURL) else getSchemeLoop rawURL (i + 1) cs
    else if c = ':' then
      if i = 0 then .error (Error.parse "missing protocol scheme")
      else .ok (rawURL.take i, cs)
    else .ok ([], rawURL)

/-- Go `getScheme`. -/
def getScheme (rawURL : List Char) : Except Error (List Char × List Char) :=
  getSchemeLoop rawURL 0 rawURL

/-- Go `strings.ToLower` on the ASCII letters a scheme is made of. -/
def toLower (s : List Char) : List Char :=
  s.map fun c =>
    if 'A'.toNat ≤ c.toNat ∧ c.toNat ≤ 'Z'.toNat then Char.ofNat (c.toNat + 32) else c

/-- Go `validOptionalPort`. -/
def validOptionalPort (port : List Char) : Bool :=
  match port with
  | [] => true
  | c :: rest => decide (c = ':') && rest.all isDigit

/-- Go `parseHost`. -/
def parseHost (host : List Char) : Except Error (List Char) :=
  if host.head? = some '[' then
    match LastIndex ']' host with
    | none => .error (Error.parse "missing ']' in host")
    | some i =>
      if ¬ validOptionalPort (host.drop (i + 1)) then .error (Error.parse "invalid port")
      else
        match IndexString ['%', '2', '5'] (host.take i) with
        | some zone =>
          match unescape .encodeHost (host.take zone) with
          | .error e => .error e
          | .ok host1 =>
            match unescape .encodeZone ((host.take i).drop zone) with
            | .error e => .error e
            | .ok host2 =>
              match unescape .encodeHost (host.drop i) with
              | .error e => .error e
              | .ok host3 => .ok (host1 ++ host2 ++ host3)
        | none => unescape .encodeHost host
  else
    match LastIndex ':' host with
    | some i =>
      if ¬ validOptionalPort (host.drop i) then .error (Error.parse "invalid port")
      else unescape .encodeHost host
    | none => unescape .encodeHost host

/-- Go `validUserinfo`. -/
def validUserinfo (s : List Char) : Bool :=
  s.all fun c =>
    isLetter c || isDigit c ||
      decide (c ∈ ['-', '.', '_', ':', '~', '!', '$', '&', apostrophe, '(', ')', '*', '+', ',',
        ';', '=', '%', '@'])

/-- Go `parseAuthority`. -/
def parseAuthority (authority : List Char) :
    Except Error (Option (String × Option String) × List Char) :=
  match LastIndex '@' authority with
  | none =>
    match parseHost authority with
    | .error e => .error e
    | .ok host => .ok (none, host)
  | some i =>
    match parseHost (authority.drop (i + 1)) with
    | .error e => .error e
    | .ok host =>
      if ¬ validUserinfo (authority.take i) then .error (Error.parse "invalid userinfo")
      else if ':' ∉ authority.take i then
        match unescape .encodeUserPassword (authority.take i) with
        | .error e => .error e
        | .ok username => .ok (some (String.mk username, none), host)
      else
        match unescape .encodeUserPassword (Cut ':' (authority.take i)).1 with
        | .error e => .error e
        | .ok username =>
          match unescape .encodeUserPassword (Cut ':' (authority.take i)).2.1 with
          | .error e => .error e
          | .ok password => .ok (some (String.mk username, some (String.mk password)), host)

/-- The zero value of `url.URL`. -/
def emptyURL : URL :=
  { Scheme := "", Opaque := "", User := none, Host := "", Path := "", RawPath := "",
    OmitHost := false, ForceQuery := false, RawQuery := "", Fragment := "",
    RawFragment := "" }

/-- Go `(*URL).setPath`. -/
def setPath (u : URL) (p : List Char) : Except Error URL :=
  match unescape .encodePath p with
  | .error e => .error e
  | .ok path =>
    .ok { u with
          Path := String.mk path,
          RawPath := if p = escape .encodePath path then "" else String.mk p }

/-- Go `(*URL).setFragment`. -/
def setFragment (u : URL) (f : List Char) : Except Error URL :=
  match unescape .encodeFragment f with
  | .error e => .error e
  | .ok fragment =>
    .ok { u with
          Fragment := String.mk fragment,
          RawFragment := if f = escape .encodeFragment fragment then "" else String.mk f }

/-- Go `parse(rawURL, viaRequest)` from the test for a rootless path on: `u` holds
the scheme and the query already split off, `rest` is what is left. -/
def parseHier (u : URL) (rest : List Char) (viaRequest : Bool) : Except Error URL :=
  if rest.head? ≠ some '/' ∧ u.Scheme ≠ "" then .ok { u with Opaque := String.mk rest }
  else if rest.head? ≠ some '/' ∧ viaRequest then
    .error (Error.parse "invalid URI for request")
  else if rest.head? ≠ some '/' ∧ ':' ∈ (Cut '/' rest).1 then
    .error (Error.parse "first path segment in URL cannot contain colon")
  else if (u.Scheme ≠ "" ∨ (¬ viaRequest ∧ ¬ ['/', '/', '/'].isPrefixOf rest)) ∧
      ['/', '/'].isPrefixOf rest then
    match Index '/' (rest.drop 2) with
    | some i =>
      match parseAuthority ((rest.drop 2).take i) with
      | .error e => .error e
      | .ok (user, host) =>
        setPath { u with User := user, Host := String.mk host } ((rest.drop 2).drop i)
    | none =>
      match parseAuthority (rest.drop 2) with
      | .error e => .error e
      | .ok (user, host) => setPath { u with User := user, Host := String.mk host } []
  else if u.Scheme ≠ "" ∧ rest.head? = some '/' then setPath { u with OmitHost := true } rest
  else setPath u rest

/-- Go `parse(rawURL, viaRequest)`. -/
def parse (rawURL : List Char) (viaRequest : Bool) : Except Error URL :=
  if stringContainsCTLByte rawURL then
    .error (Error.parse "invalid control character in URL")
  else if rawURL = [] ∧ viaRequest then .error (Error.parse "empty url")
  else if rawURL = ['*'] then .ok { emptyURL with Path := "*" }
  else
    match getScheme rawURL with
    | .error e => .error e
    | .ok (scheme, rest) =>
      if rest.getLast? = some '?' ∧ Count '?' rest = 1 then
        parseHier { emptyURL with Scheme := String.mk (toLower scheme), ForceQuery := true }
          rest.dropLast viaRequest
      else
        parseHier
          { emptyURL with
            Scheme := String.mk (toLower scheme), RawQuery := String.mk (Cut '?' rest).2.1 }
          (Cut '?' rest).1 viaRequest

/-- Go `url.Parse`. -/
def Parse (rawURL : String) : Except Error URL :=
  match parse (Cut '#' rawURL.data).1 false with
  | .error e => .error e
  | .ok url =>
    if (Cut '#' rawURL.data).2.1 = [] then .ok url
    else setFragment url (Cut '#' rawURL.data).2.1

/-- The token characters of `net/http` (`validMethod`). -/
def isTokenChar (c : Char) : Bool :=
  isLetter c || isDigit c ||
    decide (c ∈ ['!', '#', '$', '%', '&', apostrophe, '*', '+', '-', '.', '^', '_',
      Char.ofNat 96, '|', '~'])

/-- Go `removeEmptyPort` of `net/http`. -/
def removeEmptyPort (host : List Char) : List Char :=
  let hasPort : Bool :=
    match LastIndex ':' host, LastIndex ']' host with
    | some i, some j => decide (i > j)
    | some _, none => true
    | none, _ => false
  if hasPort ∧ host.getLast? = some ':' then host.dropLast else host

/-- Go `http.NewRequest(method, url, nil)`: the method and the parsed URL of
the request it returns. -/
def NewRequest (method url : String) : Except Error BackendRequest :=
  let method1 := if method = "" then "GET" else method
  if ¬ method1.data.all isTokenChar then .error (Error.parse "invalid method")
  else
    match Parse url with
    | .error e => .error e
    | .ok u =>
      .ok { Method := method1,
            URL := { u with Host := String.mk (removeEmptyPort u.Host.data) } }

/-! ## `addrsForServicePort` -/

/-- Lines 64-70: the name of the first port spec whose `Port` is `port`
(`targetPort` stays `nil` when the loop ends without a `break`). -/
def findTargetPort (ports : List ServicePort) (port : Int) : Option String :=
  match ports with
  | [] => none
  | portInfo :: rest =>
    if portInfo.Port = port then some portInfo.Name else findTargetPort rest port

/-- Lines 88-90: `addrs = append(addrs, addr.IP)` for every address. -/
def appendAddresses (addrs : List String) (addresses : List EndpointAddress) : List String :=
  addresses.foldl (fun acc addr => acc ++ [addr.IP]) addrs

/-- Lines 84-92: the loop over `subset.Ports`, on the pair `(addrs, resPort)`. -/
def portsLoop (targetPort : String) (subset : EndpointSubset) :
    List EndpointPort → List String × Int → List String × Int
  | [], st => st
  | port :: rest, st =>
    if port.Name ≠ targetPort then portsLoop targetPort subset rest st
    else portsLoop targetPort subset rest (appendAddresses st.1 subset.Addresses, port.Port)

/-- Lines 83-93: the loop over `ep.Subsets`. -/
def subsetsLoop (targetPort : String) :
    List EndpointSubset → List String × Int → List String × Int
  | [], st => st
  | subset :: rest, st =>
    subsetsLoop targetPort rest (portsLoop targetPort subset subset.Ports st)

/-- What one call of `addrsForServicePort` yields: the returned values, the
metrics after the deferred observation, the lister calls made. -/
structure Resolution where
  result : Except Error (List String × Int)
  metrics : Metrics
  trace : List Event

/-- Lines 60-95: the body of `addrsForServicePort`, with the lister calls made. -/
def resolveBody (b : endpointsBalancer) (svcName : NamespacedName) (port : Int) :
    Except Error (List String × Int) × List Event :=
  match b.svcs svcName.Namespace svcName.Name with
  | .error err => (.error err, [Event.getService svcName.Namespace svcName.Name])
  | .ok svc =>
    match findTargetPort svc.Ports port with
    | none =>
      (.error (Error.portDoesNotExist port svcName),
        [Event.getService svcName.Namespace svcName.Name])
    | some targetPort =>
      match b.eps svcName.Namespace svcName.Name with
      | .error err =>
        (.error err, [Event.getService svcName.Namespace svcName.Name,
          Event.getEndpoints svcName.Namespace svcName.Name])
      | .ok ep =>
        (.ok (subsetsLoop targetPort ep.Subsets ([], 0)),
          [Event.getService svcName.Namespace svcName.Name,
            Event.getEndpoints svcName.Namespace svcName.Name])

/-- The method `addrsForServicePort`: the body, then the deferred observation
of `resolveLatency` under the labels of `svcName`, on every return. -/
def addrsForServicePort (b : endpointsBalancer) (svcName : NamespacedName) (port : Int)
    (m : Metrics) : Resolution :=
  let r := resolveBody b svcName port
  { result := r.1
    metrics := m.observeResolve svcName.Name svcName.Namespace
    trace := r.2 }

/-! ## `ServeHTTP` -/

/-- What one call of `ServeHTTP` leaves behind. -/
structure Handled where
  outcome : Outcome
  resp : ResponseWriter
  metrics : Metrics
  trace : List Event

/-- Lines 164-168: `for k, v := range backendHeaders { headers[k] = v }`. -/
def copyHeaders (headers backendHeaders : Header) : Header :=
  backendHeaders.foldl (fun h kv => Header.set h kv.1 kv.2) headers

/-- Lines 123-177 of `ServeHTTP`: resolution, selection, forwarding and the
mirroring of the backend response, for the decoded `svcName`. -/
def serveResolved (env : Env) (resp : ResponseWriter) (req : Request) (m : Metrics)
    (svcName : NamespacedName) : Handled :=
  let r := addrsForServicePort env.b svcName (int32 servePort) m
  match r.result with
  | .error _ =>
    { outcome := .returned, resp := resp.WriteHeader StatusServiceUnavailable,
      metrics := r.metrics, trace := r.trace }
  | .ok (addrs, targetPort) =>
    let tr1 := r.trace ++ [Event.randIntn addrs.length]
    match Intn env.rnd addrs.length with
    | none => { outcome := .panicked, resp := resp, metrics := r.metrics, trace := tr1 }
    | some i =>
      match addrs.get? i with
      | none => { outcome := .panicked, resp := resp, metrics := r.metrics, trace := tr1 }
      | some addr =>
        let backendURL : URL :=
          { req.URL with Host := JoinHostPort addr (Itoa targetPort), Scheme := "http" }
        let tr2 := tr1 ++ [Event.newRequest MethodGet backendURL.String]
        match env.newRequest MethodGet backendURL.String with
        | .error _ =>
          { outcome := .returned, resp := resp.WriteHeader StatusInternalServerError,
            metrics := r.metrics, trace := tr2 }
        | .ok backendReq =>
          let tr3 := tr2 ++ [Event.clientDo backendReq]
          match env.clientDo backendReq with
          | .error _ =>
            { outcome := .returned, resp := resp.WriteHeader StatusInternalServerError,
              metrics := r.metrics, trace := tr3 }
          | .ok backendResp =>
            let m2 := r.metrics.observeRequest svcName.Name svcName.Namespace
            let resp1 : ResponseWriter :=
              { resp with header := copyHeaders resp.header backendResp.Header }
            let resp2 := resp1.WriteHeader backendResp.StatusCode
            { outcome := .returned, resp := resp2.Write backendResp.Body,
              metrics := m2, trace := tr3 }

/-- The slice `req.Host[:len(req.Host)-len(baseDomain)]` of line 111. -/
def trimBaseDomain (host : String) : String :=
  String.mk (host.data.take (host.data.length - baseDomain.data.length))

/-- The method `ServeHTTP` (lines 98-177). -/
def ServeHTTP (env : Env) (resp : ResponseWriter) (req : Request) (m : Metrics) : Handled :=
  if req.Method ≠ MethodGet then
    { outcome := .returned, resp := resp.WriteHeader StatusMethodNotAllowed,
      metrics := m, trace := [] }
  else if ¬ HasSuffix req.Host baseDomain then
    { outcome := .returned, resp := resp.WriteHeader StatusNotFound,
      metrics := m, trace := [] }
  else
    let domainParts := Split (trimBaseDomain req.Host) '.'
    match domainParts with
    | [name, ns] => serveResolved env resp req m { Namespace := ns, Name := name }
    | _ =>
      { outcome := .returned, resp := resp.WriteHeader StatusNotFound,
        metrics := m, trace := [] }

/-- Lines 105-121 on their own: the identity `ServeHTTP` decodes from a host,
`none` on the two paths answered 404. -/
def decodeHost (host : String) : Option NamespacedName :=
  if ¬ HasSuffix host baseDomain then none
  else
    match Split (trimBaseDomain host) '.' with
    | [name, ns] => some { Namespace := ns, Name := name }
    | _ => none

/-! ## Sample inputs -/

def sampleURL : URL :=
  { Scheme := "", Opaque := "", User := none, Host := "", Path := "/p", RawPath := "",
    OmitHost := false, ForceQuery := false, RawQuery := "q=1", Fragment := "",
    RawFragment := "" }

def sampleReq : Request :=
  { Method := "GET", Host := "foo.bar.balance.local", URL := sampleURL }

def sampleService : Service := { Ports := [{ Name := "http", Port := 80 }] }

def sampleEndpoints : Endpoints :=
  { Subsets := [{ Addresses := [{ IP := "10.0.0.1" }, { IP := "10.0.0.2" }],
                  Ports := [{ Name := "http", Port := 8080 }] }] }

def sampleBalancer (svc : Option Service) (ep : Option Endpoints) : endpointsBalancer :=
  { svcs := fun ns name =>
      if ns = "bar" ∧ name = "foo" then
        match svc with
        | some s => .ok s
        | none => .error (Error.lister "service not found")
      else .error (Error.lister "service not found")
    eps := fun ns name =>
      if ns = "bar" ∧ name = "foo" then
        match ep with
        | some e => .ok e
        | none => .error (Error.lister "endpoints not found")
      else .error (Error.lister "endpoints not found") }

def sampleBackendResponse : BackendResponse :=
  { StatusCode := 200, Header := [("Content-Type", ["text/plain"])], Body := "hello" }

def sampleEnv (svc : Option Service) (ep : Option Endpoints) (rnd : Nat) : Env :=
  { b := sampleBalancer svc ep
    rnd := rnd
    newRequest := NewRequest
    clientDo := fun _ => .ok sampleBackendResponse }

def zeroMetrics : Metrics :=
  { resolveLatency := fun _ _ => 0, requestLatency := fun _ _ => 0 }

/-! ## The resolution result in the words of the specification -/

/-- Follows the spec's words (4.2, step 4): for every subset, for every port
entry whose named port matches, all addresses of that subset, in that order. -/
def specAddresses (T : String) (subsets : List EndpointSubset) : List String :=
  subsets.flatMap fun subset =>
    (subset.Ports.filter fun port => port.Name = T).flatMap fun _ =>
      subset.Addresses.map fun addr => addr.IP

/-- Follows the spec's words (4.2, step 5): the numeric port of the last
matching port entry in subset order and then port-entry order, 0 without one. -/
def specPort (T : String) (subsets : List EndpointSubset) : Int :=
  match ((subsets.flatMap fun subset => subset.Ports).filter
      fun port => port.Name = T).getLast? with
  | some port => port.Port
  | none => 0

/-- Follows the spec's words (4.2, step 2): the named port of the port spec
whose numeric port equals `port`, the first in the list. -/
def specTargetPort (svc : Service) (port : Int) : Option String :=
  (svc.Ports.find? fun portInfo => portInfo.Port = port).map fun portInfo => portInfo.Name

/-- The URL of lines 136-138 for the selected address: a copy of the inbound
URL with `Host` and `Scheme` overwritten. -/
def backendURLFor (u : URL) (addr : String) (targetPort : Int) : URL :=
  { u with Host := JoinHostPort addr (Itoa targetPort), Scheme := "http" }

/-- What `serveResolved` yields from line 136 on, once resolution gave `r` with
`n` addresses and `addr` was selected among them. -/
def forwardTo (env : Env) (resp : ResponseWriter) (req : Request) (r : Resolution) (n : Nat)
    (svcName : NamespacedName) (addr : String) (targetPort : Int) : Handled :=
  match env.newRequest MethodGet (backendURLFor req.URL addr targetPort).String with
  | .error _ =>
    { outcome := .returned, resp := resp.WriteHeader StatusInternalServerError,
      metrics := r.metrics,
      trace := r.trace ++ [Event.randIntn n] ++
        [Event.newRequest MethodGet (backendURLFor req.URL addr targetPort).String] }
  | .ok backendReq =>
    match env.clientDo backendReq with
    | .error _ =>
      { outcome := .returned, resp := resp.WriteHeader StatusInternalServerError,
        metrics := r.metrics,
        trace := r.trace ++ [Event.randIntn n] ++
          [Event.newRequest MethodGet (backendURLFor req.URL addr targetPort).String] ++
          [Event.clientDo backendReq] }
    | .ok backendResp =>
      { outcome := .returned,
        resp := (ResponseWriter.WriteHeader
          { resp with header := copyHeaders resp.header backendResp.Header }
          backendResp.StatusCode).Write backendResp.Body,
        metrics := r.metrics.observeRequest svcName.Name svcName.Namespace,
        trace := r.trace ++ [Event.randIntn n] ++
          [Event.newRequest MethodGet (backendURLFor req.URL addr targetPort).String] ++
          [Event.clientDo backendReq] }

/-! ## Notions used in the statements on the backend request -/

/-- Percent-decoding without any check: what `unescape` returns when it
returns a string (outside query components). -/
def decode : List Char → List Char
  | [] => []
  | c :: rest =>
    if c = '%' then
      match rest with
      | h1 :: h2 :: t => Char.ofNat (unhex h1 * 16 + unhex h2) :: decode t
      | _ => c :: rest
    else c :: decode rest

/-- Every character of the string stands for a byte. -/
@[reducible]
def IsBytes (s : String) : Prop := ∀ c ∈ s.data, c.toNat < 256


/-- The userinfo and its `@`, as `String` writes them. -/
def userinfoPart (ui : Option (String × Option String)) : List Char :=
  match ui with
  | some x => userinfoString x ++ ['@']
  | none => []

/-- The slash `String` writes between the host and a path that begins without one. -/
def leadingSlash (u : URL) : String :=
  if u.EscapedPath ≠ [] ∧ u.EscapedPath.head? ≠ some '/' then "/" else ""

/-- The part of a query before its first `#`. -/
def beforeHash (q : String) : String := String.mk (Cut '#' q.data).1

/-- The requests handed to `http.DefaultClient.Do`, in order. -/
def downstream : List Event → List BackendRequest
  | [] => []
  | Event.clientDo r :: t => r :: downstream t
  | _ :: t => downstream t

/-- The `(method, url)` pairs `http.NewRequest` was called with, in order. -/
def constructed : List Event → List (String × String)
  | [] => []
  | Event.newRequest method u :: t => (method, u) :: constructed t
  | _ :: t => constructed t

/-- The arguments of the `rand.Intn` calls, in order. -/
def selections : List Event → List Int
  | [] => []
  | Event.randIntn n :: t => n :: selections t
  | _ :: t => selections t

/-- Whether a downstream call of the trace came back with a response. -/
def respondedOk (env : Env) (tr : List Event) : Bool :=
  (downstream tr).any fun r => (env.clientDo r).toBool

/-! ## Library functions: basic facts -/

theorem int32_servePort : int32 servePort = 80 := by decide

theorem splitChars_ne_nil (sep : Char) (l : List Char) : splitChars sep l ≠ [] := by
  cases l with
  | nil => simp [splitChars]
  | cons c cs =>
    unfold splitChars
    split
    · simp
    · split <;> simp

theorem splitChars_of_not_mem (sep : Char) (l : List Char) (h : sep ∉ l) :
    splitChars sep l = [l] := by
  induction l with
  | nil => rfl
  | cons c cs ih =>
    have hc : c ≠ sep := fun e => h (by simp [e])
    have hcs : sep ∉ cs := fun e => h (by simp [e])
    simp [splitChars, hc, ih hcs]

theorem splitChars_append_sep (sep : Char) (a rest : List Char) (h : sep ∉ a) :
    splitChars sep (a ++ sep :: rest) = a :: splitChars sep rest := by
  induction a with
  | nil => simp [splitChars]
  | cons c cs ih =>
    have hc : c ≠ sep := fun e => h (by simp [e])
    have hcs : sep ∉ cs := fun e => h (by simp [e])
    simp [splitChars, hc, ih hcs]

theorem splitChars_eq_singleton (sep : Char) (l b : List Char)
    (h : splitChars sep l = [b]) : l = b ∧ sep ∉ b := by
  induction l generalizing b with
  | nil =>
    simp [splitChars] at h
    subst h; simp
  | cons c cs ih =>
    unfold splitChars at h
    by_cases hc : c = sep
    · simp [hc] at h
      exact absurd h.2 (splitChars_ne_nil sep cs)
    · simp only [hc, if_false] at h
      cases hs : splitChars sep cs with
      | nil => exact absurd hs (splitChars_ne_nil sep cs)
      | cons x t =>
        rw [hs] at h
        simp at h
        obtain ⟨hb, ht⟩ := h
        subst ht
        obtain ⟨h1, h2⟩ := ih x hs
        subst hb; subst h1
        refine ⟨rfl, ?_⟩
        simp only [List.mem_cons, not_or]
        exact ⟨fun e => hc e.symm, h2⟩

theorem splitChars_eq_pair (sep : Char) (l a b : List Char)
    (h : splitChars sep l = [a, b]) : l = a ++ sep :: b ∧ sep ∉ a ∧ sep ∉ b := by
  induction l generalizing a with
  | nil => simp [splitChars] at h
  | cons c cs ih =>
    unfold splitChars at h
    by_cases hc : c = sep
    · simp [hc] at h
      obtain ⟨ha, hb⟩ := h
      obtain ⟨h1, h2⟩ := splitChars_eq_singleton sep cs b hb
      subst ha; subst h1; subst hc
      simp [h2]
    · simp only [hc, if_false] at h
      cases hs : splitChars sep cs with
      | nil => exact absurd hs (splitChars_ne_nil sep cs)
      | cons x t =>
        rw [hs] at h
        simp at h
        obtain ⟨ha, ht⟩ := h
        subst ht
        obtain ⟨h1, h2, h3⟩ := ih x hs
        subst ha
        refine ⟨by simp [h1], ?_, h3⟩
        simp only [List.mem_cons, not_or]
        exact ⟨fun e => hc e.symm, h2⟩

theorem HasSuffix_append (p suffix : String) : HasSuffix (p ++ suffix) suffix = true := by
  simp [HasSuffix, String.data_append]

theorem HasSuffix_data (s suffix : String) (h : HasSuffix s suffix = true) :
    s.data = s.data.take (s.data.length - suffix.data.length) ++ suffix.data := by
  simp only [HasSuffix, Bool.and_eq_true, decide_eq_true_eq] at h
  conv_lhs => rw [← List.take_append_drop (s.data.length - suffix.data.length) s.data]
  rw [h.2]

theorem trimBaseDomain_append (p : String) : trimBaseDomain (p ++ baseDomain) = p := by
  simp [trimBaseDomain, String.data_append]

/-! ## Host decoding -/

theorem ServeHTTP_of_decodeHost (env : Env) (resp : ResponseWriter) (req : Request)
    (m : Metrics) (svcName : NamespacedName) (hm : req.Method = MethodGet)
    (hd : decodeHost req.Host = some svcName) :
    ServeHTTP env resp req m = serveResolved env resp req m svcName := by
  unfold decodeHost at hd
  unfold ServeHTTP
  by_cases hs : HasSuffix req.Host baseDomain = true
  · simp only [hs, not_true_eq_false, if_false] at hd
    simp only [hm, ne_eq, not_true_eq_false, if_false, hs]
    split at hd
    · rename_i name ns heq
      simp only [Option.some.injEq] at hd
      simp only [heq, hd]
    · exact absurd hd (by simp)
  · simp [hs] at hd

theorem ServeHTTP_of_decodeHost_none (env : Env) (resp : ResponseWriter) (req : Request)
    (m : Metrics) (hm : req.Method = MethodGet) (hd : decodeHost req.Host = none) :
    ServeHTTP env resp req m =
      { outcome := .returned, resp := resp.WriteHeader StatusNotFound,
        metrics := m, trace := [] } := by
  unfold decodeHost at hd
  unfold ServeHTTP
  by_cases hs : HasSuffix req.Host baseDomain = true
  · simp only [hs, not_true_eq_false, if_false] at hd
    simp only [hm, ne_eq, not_true_eq_false, if_false, hs]
    split at hd
    · exact absurd hd (by simp)
    · rfl
  · simp [hm, hs]

theorem decodeHost_eq_none_iff (host : String) :
    decodeHost host = none ↔
      HasSuffix host baseDomain = false ∨ (Split (trimBaseDomain host) '.').length ≠ 2 := by
  unfold decodeHost
  by_cases hs : HasSuffix host baseDomain = true
  · simp only [hs, not_true_eq_false, if_false, Bool.true_eq_false, false_or]
    split
    · rename_i name ns heq
      simp [heq]
    · rename_i hne
      simp only [true_iff]
      intro hlen
      match hsp : Split (trimBaseDomain host) '.', hlen with
      | [x, y], _ => exact hne x y hsp
  · simp [hs]

theorem Split_name_namespace (name ns : String) (h1 : '.' ∉ name.data)
    (h2 : '.' ∉ ns.data) : Split (name ++ "." ++ ns) '.' = [name, ns] := by
  have hd : (name ++ "." ++ ns).data = name.data ++ '.' :: ns.data := by
    simp [String.data_append]
  simp only [Split, hd, splitChars_append_sep '.' _ _ h1, splitChars_of_not_mem '.' _ h2,
    List.map_cons, List.map_nil]

/-! ## Claims on the method check and on host decoding -/

/-- C7: a request whose method is not GET is answered 405 with no body, and
nothing else happens: the header map is untouched, no lister is called, no
address is selected, no downstream request is built or sent, and no metric
is observed, whatever the host and the registry. -/
theorem ServeHTTP_method_not_get (env : Env) (hdr : Header) (req : Request) (m : Metrics)
    (h : req.Method ≠ MethodGet) :
    (ServeHTTP env (newResponse hdr) req m).outcome = Outcome.returned ∧
    (ServeHTTP env (newResponse hdr) req m).resp =
      { header := hdr, status := some 405, body := "" } ∧
    (ServeHTTP env (newResponse hdr) req m).trace = [] ∧
    (ServeHTTP env (newResponse hdr) req m).metrics = m := by
  simp [ServeHTTP, h, newResponse, ResponseWriter.WriteHeader, StatusMethodNotAllowed]

theorem ServeHTTP_method_not_get_witness :
    ("POST" : String) ≠ MethodGet ∧
    (ServeHTTP (sampleEnv (some sampleService) (some sampleEndpoints) 0) (newResponse [])
      { sampleReq with Method := "POST" } zeroMetrics).resp =
      { header := [], status := some 405, body := "" } :=
  ⟨by decide,
    (ServeHTTP_method_not_get (sampleEnv (some sampleService) (some sampleEndpoints) 0) []
      { sampleReq with Method := "POST" } zeroMetrics (by decide)).2.1⟩

/-- C5: a GET request whose host does not end with `baseDomain`, or ends with
it while the part before it does not split on the dot into exactly two
segments, is answered 404, and no lister call, selection, downstream request
or metric observation takes place. -/
theorem ServeHTTP_bad_host (env : Env) (hdr : Header) (req : Request) (m : Metrics)
    (hm : req.Method = MethodGet)
    (hbad : HasSuffix req.Host baseDomain = false ∨
      (HasSuffix req.Host baseDomain = true ∧
        (Split (trimBaseDomain req.Host) '.').length ≠ 2)) :
    (ServeHTTP env (newResponse hdr) req m).outcome = Outcome.returned ∧
    (ServeHTTP env (newResponse hdr) req m).resp.status = some 404 ∧
    (ServeHTTP env (newResponse hdr) req m).trace = [] ∧
    (ServeHTTP env (newResponse hdr) req m).metrics = m := by
  have hd : decodeHost req.Host = none := by
    rw [decodeHost_eq_none_iff]
    rcases hbad with h | h
    · exact Or.inl h
    · exact Or.inr h.2
  rw [ServeHTTP_of_decodeHost_none env _ req m hm hd]
  simp [newResponse, ResponseWriter.WriteHeader, StatusNotFound]

theorem ServeHTTP_bad_host_witness :
    (HasSuffix "a.b.c.balance.local" baseDomain = true ∧
      (Split (trimBaseDomain "a.b.c.balance.local") '.').length ≠ 2) ∧
    (ServeHTTP (sampleEnv (some sampleService) (some sampleEndpoints) 0) (newResponse [])
      { sampleReq with Host := "a.b.c.balance.local" } zeroMetrics).resp.status = some 404 ∧
    (ServeHTTP (sampleEnv (some sampleService) (some sampleEndpoints) 0) (newResponse [])
      { sampleReq with Host := "a.b.c.balance.local" } zeroMetrics).trace = [] :=
  ⟨by decide,
    (ServeHTTP_bad_host (sampleEnv (some sampleService) (some sampleEndpoints) 0) []
      { sampleReq with Host := "a.b.c.balance.local" } zeroMetrics (by decide)
      (Or.inr (by decide))).2.1,
    (ServeHTTP_bad_host (sampleEnv (some sampleService) (some sampleEndpoints) 0) []
      { sampleReq with Host := "a.b.c.balance.local" } zeroMetrics (by decide)
      (Or.inr (by decide))).2.2.1⟩

/-- C6: for `name` and `namespace` without a dot, the host
`name.namespace` followed by `baseDomain` decodes to the identity with that
name and that namespace, first segment the name, and a GET request for that
host is handled as a request for that identity. -/
theorem decodeHost_name_namespace (name ns : String) (h1 : '.' ∉ name.data)
    (h2 : '.' ∉ ns.data) :
    decodeHost (name ++ "." ++ ns ++ baseDomain) = some { Namespace := ns, Name := name } ∧
    ∀ (env : Env) (resp : ResponseWriter) (u : URL) (m : Metrics),
      ServeHTTP env resp
          { Method := MethodGet, Host := name ++ "." ++ ns ++ baseDomain, URL := u } m =
        serveResolved env resp
          { Method := MethodGet, Host := name ++ "." ++ ns ++ baseDomain, URL := u } m
          { Namespace := ns, Name := name } := by
  have hd : decodeHost (name ++ "." ++ ns ++ baseDomain)
      = some { Namespace := ns, Name := name } := by
    unfold decodeHost
    rw [HasSuffix_append, trimBaseDomain_append, Split_name_namespace name ns h1 h2]
    simp
  exact ⟨hd, fun env resp u m => ServeHTTP_of_decodeHost env resp _ m _ rfl hd⟩

theorem decodeHost_name_namespace_witness :
    '.' ∉ ("foo" : String).data ∧ '.' ∉ ("bar" : String).data ∧
    decodeHost "foo.bar.balance.local" = some { Namespace := "bar", Name := "foo" } :=
  ⟨by decide, by decide, (decodeHost_name_namespace "foo" "bar" (by decide) (by decide)).1⟩

/-- C4, as the code has it: a host that decodes to an identity is the name,
a dot, the namespace and then `baseDomain`, where the name holds no dot and
the namespace holds no dot (either may be empty). -/
theorem decodeHost_shape (host : String) (svcName : NamespacedName)
    (h : decodeHost host = some svcName) :
    host = svcName.Name ++ "." ++ svcName.Namespace ++ baseDomain ∧
      '.' ∉ svcName.Name.data ∧ '.' ∉ svcName.Namespace.data := by
  unfold decodeHost at h
  by_cases hs : HasSuffix host baseDomain = true
  · simp only [hs, not_true_eq_false, if_false] at h
    split at h
    · rename_i name ns heq
      simp only [Option.some.injEq] at h
      subst h
      simp only [Split, trimBaseDomain] at heq
      have hsplit : splitChars '.' (host.data.take (host.data.length - baseDomain.data.length))
          = [name.data, ns.data] := by
        match hsp : splitChars '.' (host.data.take (host.data.length - baseDomain.data.length)),
          heq with
        | [x, y], heq =>
          simp only [List.map_cons, List.map_nil, List.cons.injEq, and_true] at heq
          rw [← heq.1, ← heq.2]
      obtain ⟨e, n1, n2⟩ := splitChars_eq_pair '.' _ _ _ hsplit
      refine ⟨?_, n1, n2⟩
      apply String.ext
      rw [HasSuffix_data host baseDomain hs, e]
      simp [String.data_append]
    · exact absurd h (by simp)
  · simp [hs] at h

theorem decodeHost_shape_witness :
    decodeHost "foo.bar.balance.local" = some { Namespace := "bar", Name := "foo" } ∧
    ("foo.bar.balance.local" : String) = "foo" ++ "." ++ "bar" ++ baseDomain :=
  ⟨by decide,
    (decodeHost_shape "foo.bar.balance.local" { Namespace := "bar", Name := "foo" }
      (by decide)).1⟩

/-- C4 fails as stated: the host `..balance.local` decodes, to the identity
with empty name and empty namespace, and a GET request for it is not answered
404 but goes on to the service lister with those empty strings. -/
theorem decodeHost_empty_labels :
    decodeHost "..balance.local" = some { Namespace := "", Name := "" } ∧
    (ServeHTTP (sampleEnv (some sampleService) (some sampleEndpoints) 0) (newResponse [])
      { sampleReq with Host := "..balance.local" } zeroMetrics).trace =
        [Event.getService "" ""] ∧
    (ServeHTTP (sampleEnv (some sampleService) (some sampleEndpoints) 0) (newResponse [])
      { sampleReq with Host := "..balance.local" } zeroMetrics).resp.status = some 503 := by
  decide

/-! ## Resolution -/

theorem appendAddresses_eq (addrs : List String) (addresses : List EndpointAddress) :
    appendAddresses addrs addresses = addrs ++ addresses.map fun addr => addr.IP := by
  unfold appendAddresses
  induction addresses generalizing addrs with
  | nil => simp
  | cons a t ih => simp [List.foldl_cons, ih]

theorem portsLoop_eq (T : String) (subset : EndpointSubset) (ports : List EndpointPort)
    (st : List String × Int) :
    portsLoop T subset ports st =
      (st.1 ++ (ports.filter fun port => port.Name = T).flatMap
          (fun _ => subset.Addresses.map fun addr => addr.IP),
        (ports.filter fun port => port.Name = T).foldl (fun _ port => port.Port) st.2) := by
  induction ports generalizing st with
  | nil => simp [portsLoop]
  | cons port rest ih =>
    unfold portsLoop
    by_cases h : port.Name = T
    · simp [h, ih, appendAddresses_eq]
    · simp [h, ih]

theorem subsetsLoop_eq (T : String) (subsets : List EndpointSubset) (st : List String × Int) :
    subsetsLoop T subsets st =
      (st.1 ++ specAddresses T subsets,
        ((subsets.flatMap fun subset => subset.Ports).filter
          fun port => port.Name = T).foldl (fun _ port => port.Port) st.2) := by
  induction subsets generalizing st with
  | nil => simp [subsetsLoop, specAddresses]
  | cons subset rest ih =>
    unfold subsetsLoop
    rw [ih, portsLoop_eq]
    simp [specAddresses, List.filter_append, List.foldl_append]

theorem foldl_port_eq_getLast (l : List EndpointPort) (d : Int) :
    l.foldl (fun _ port => port.Port) d =
      match l.getLast? with
      | some port => port.Port
      | none => d := by
  induction l using List.reverseRecOn with
  | nil => rfl
  | append_singleton l a _ => simp [List.foldl_append, List.getLast?_concat]

theorem subsetsLoop_spec (T : String) (subsets : List EndpointSubset) :
    subsetsLoop T subsets ([], 0) = (specAddresses T subsets, specPort T subsets) := by
  rw [subsetsLoop_eq, foldl_port_eq_getLast]
  simp [specPort]

theorem findTargetPort_eq (svc : Service) (port : Int) :
    findTargetPort svc.Ports port = specTargetPort svc port := by
  unfold specTargetPort
  induction svc.Ports with
  | nil => rfl
  | cons p rest ih =>
    unfold findTargetPort
    by_cases h : p.Port = port
    · simp [h]
    · simp [h, ih]

theorem findTargetPort_isSome (ports : List ServicePort) (port : Int)
    (h : ∃ p ∈ ports, p.Port = port) : ∃ T, findTargetPort ports port = some T := by
  induction ports with
  | nil => simp at h
  | cons p rest ih =>
    unfold findTargetPort
    by_cases hp : p.Port = port
    · exact ⟨p.Name, by simp [hp]⟩
    · obtain ⟨q, hq, hqp⟩ := h
      simp only [List.mem_cons] at hq
      rcases hq with rfl | hq
      · exact absurd hqp hp
      · simpa [hp] using ih ⟨q, hq, hqp⟩

theorem findTargetPort_eq_none (ports : List ServicePort) (port : Int)
    (h : ∀ p ∈ ports, p.Port ≠ port) : findTargetPort ports port = none := by
  induction ports with
  | nil => rfl
  | cons p rest ih =>
    unfold findTargetPort
    have hp : p.Port ≠ port := h p (by simp)
    simp only [hp, if_false]
    exact ih fun q hq => h q (by simp [hq])

/-- C3: when the service exists, has a port spec with the numeric port asked
for, and the endpoints object exists, `addrsForServicePort` succeeds; with `T`
the named port of the (first) matching port spec, the addresses returned are
those the specification describes (`specAddresses`) and the port returned is
the one it describes (`specPort`). -/
theorem addrsForServicePort_spec (b : endpointsBalancer) (svcName : NamespacedName)
    (port : Int) (m : Metrics) (svc : Service) (ep : Endpoints)
    (hsvc : b.svcs svcName.Namespace svcName.Name = .ok svc)
    (hport : ∃ p ∈ svc.Ports, p.Port = port)
    (hep : b.eps svcName.Namespace svcName.Name = .ok ep) :
    ∃ T, specTargetPort svc port = some T ∧
      (addrsForServicePort b svcName port m).result =
        .ok (specAddresses T ep.Subsets, specPort T ep.Subsets) := by
  obtain ⟨T, hT⟩ := findTargetPort_isSome svc.Ports port hport
  refine ⟨T, by rw [← findTargetPort_eq, hT], ?_⟩
  simp [addrsForServicePort, resolveBody, hsvc, hT, hep, subsetsLoop_spec]

theorem addrsForServicePort_spec_witness :
    (addrsForServicePort (sampleBalancer (some sampleService) (some sampleEndpoints))
      { Namespace := "bar", Name := "foo" } 80 zeroMetrics).result =
        .ok (["10.0.0.1", "10.0.0.2"], 8080) := by
  obtain ⟨T, hT, h⟩ :=
    addrsForServicePort_spec (sampleBalancer (some sampleService) (some sampleEndpoints))
      { Namespace := "bar", Name := "foo" } 80 zeroMetrics sampleService sampleEndpoints
      (by decide) (by decide) (by decide)
  have hT2 : T = "http" := by
    have : specTargetPort sampleService 80 = some "http" := by decide
    rw [this] at hT
    exact (Option.some.inj hT).symm
  subst hT2
  rw [h]
  decide

/-! ## Traces -/

theorem downstream_append (a b : List Event) :
    downstream (a ++ b) = downstream a ++ downstream b := by
  induction a with
  | nil => rfl
  | cons e t ih => cases e <;> simp [downstream, ih]

theorem constructed_append (a b : List Event) :
    constructed (a ++ b) = constructed a ++ constructed b := by
  induction a with
  | nil => rfl
  | cons e t ih => cases e <;> simp [constructed, ih]

theorem selections_append (a b : List Event) :
    selections (a ++ b) = selections a ++ selections b := by
  induction a with
  | nil => rfl
  | cons e t ih => cases e <;> simp [selections, ih]

theorem resolveBody_trace (b : endpointsBalancer) (svcName : NamespacedName) (port : Int) :
    downstream (resolveBody b svcName port).2 = [] ∧
    constructed (resolveBody b svcName port).2 = [] ∧
    selections (resolveBody b svcName port).2 = [] := by
  unfold resolveBody
  split
  · simp [downstream, constructed, selections]
  · split
    · simp [downstream, constructed, selections]
    · split <;> simp [downstream, constructed, selections]

theorem addrsForServicePort_trace (b : endpointsBalancer) (svcName : NamespacedName)
    (port : Int) (m : Metrics) :
    downstream (addrsForServicePort b svcName port m).trace = [] ∧
    constructed (addrsForServicePort b svcName port m).trace = [] ∧
    selections (addrsForServicePort b svcName port m).trace = [] :=
  resolveBody_trace b svcName port

theorem resolveBody_error (b : endpointsBalancer) (svcName : NamespacedName) (port : Int)
    (h : (∃ e, b.svcs svcName.Namespace svcName.Name = .error e) ∨
      (∃ svc, b.svcs svcName.Namespace svcName.Name = .ok svc ∧
        ∀ p ∈ svc.Ports, p.Port ≠ port) ∨
      (∃ e, b.eps svcName.Namespace svcName.Name = .error e)) :
    ∃ e, (resolveBody b svcName port).1 = .error e := by
  unfold resolveBody
  rcases h with ⟨e, he⟩ | ⟨svc, hs, hp⟩ | ⟨e, he⟩
  · exact ⟨e, by simp [he]⟩
  · exact ⟨Error.portDoesNotExist port svcName,
      by simp [hs, findTargetPort_eq_none svc.Ports port hp]⟩
  · split
    · exact ⟨_, rfl⟩
    · split
      · exact ⟨_, rfl⟩
      · exact ⟨e, by simp [he]⟩

theorem serveResolved_of_error (env : Env) (resp : ResponseWriter) (req : Request)
    (m : Metrics) (svcName : NamespacedName) (e : Error)
    (h : (addrsForServicePort env.b svcName (int32 servePort) m).result = .error e) :
    serveResolved env resp req m svcName =
      { outcome := .returned, resp := resp.WriteHeader StatusServiceUnavailable,
        metrics := (addrsForServicePort env.b svcName (int32 servePort) m).metrics,
        trace := (addrsForServicePort env.b svcName (int32 servePort) m).trace } := by
  unfold serveResolved
  simp only [h]

/-! ## Claims on resolution failures -/

/-- C2: for a GET request whose host decodes to an identity, when the service
lister fails, or the service has no port spec with numeric port 80, or the
lister of endpoints fails, `addrsForServicePort` returns an error, the
response status is 503, and no address is selected and no downstream request
is built or sent. -/
theorem ServeHTTP_resolution_error (env : Env) (hdr : Header) (req : Request) (m : Metrics)
    (svcName : NamespacedName) (hm : req.Method = MethodGet)
    (hd : decodeHost req.Host = some svcName)
    (h : (∃ e, env.b.svcs svcName.Namespace svcName.Name = .error e) ∨
      (∃ svc, env.b.svcs svcName.Namespace svcName.Name = .ok svc ∧
        ∀ p ∈ svc.Ports, p.Port ≠ 80) ∨
      (∃ e, env.b.eps svcName.Namespace svcName.Name = .error e)) :
    (∃ e, (addrsForServicePort env.b svcName (int32 servePort) m).result = .error e) ∧
    (ServeHTTP env (newResponse hdr) req m).outcome = Outcome.returned ∧
    (ServeHTTP env (newResponse hdr) req m).resp.status = some 503 ∧
    selections (ServeHTTP env (newResponse hdr) req m).trace = [] ∧
    constructed (ServeHTTP env (newResponse hdr) req m).trace = [] ∧
    downstream (ServeHTTP env (newResponse hdr) req m).trace = [] := by
  obtain ⟨e, he⟩ := resolveBody_error env.b svcName (int32 servePort)
    (by rw [int32_servePort]; exact h)
  have he2 : (addrsForServicePort env.b svcName (int32 servePort) m).result = .error e := he
  obtain ⟨t1, t2, t3⟩ := addrsForServicePort_trace env.b svcName (int32 servePort) m
  rw [ServeHTTP_of_decodeHost env _ req m svcName hm hd,
    serveResolved_of_error env _ req m svcName e he2]
  exact ⟨⟨e, he2⟩, rfl, rfl, t3, t2, t1⟩

theorem ServeHTTP_resolution_error_witness :
    (ServeHTTP (sampleEnv (some { Ports := [{ Name := "https", Port := 443 }] })
        (some sampleEndpoints) 0) (newResponse []) sampleReq zeroMetrics).resp.status
      = some 503 ∧
    downstream (ServeHTTP (sampleEnv (some { Ports := [{ Name := "https", Port := 443 }] })
        (some sampleEndpoints) 0) (newResponse []) sampleReq zeroMetrics).trace = [] :=
  have h := ServeHTTP_resolution_error
    (sampleEnv (some { Ports := [{ Name := "https", Port := 443 }] }) (some sampleEndpoints) 0)
    [] sampleReq zeroMetrics { Namespace := "bar", Name := "foo" } (by decide) (by decide)
    (Or.inr (Or.inl ⟨{ Ports := [{ Name := "https", Port := 443 }] }, by decide, by decide⟩))
  ⟨h.2.2.1, h.2.2.2.2.2⟩

/-- C1, the code at the failing input: a GET request for `foo.bar.balance.local`
when the service has port 80 and the endpoints object has no subsets.
Resolution succeeds with no address, `rand.Intn` is called with 0 and the
handler panics without having written any status, whatever the random draw. -/
theorem ServeHTTP_empty_addresses_panics (rnd : Nat) :
    (addrsForServicePort (sampleBalancer (some sampleService) (some { Subsets := [] }))
      { Namespace := "bar", Name := "foo" } (int32 servePort) zeroMetrics).result
        = .ok ([], 0) ∧
    (ServeHTTP (sampleEnv (some sampleService) (some { Subsets := [] }) rnd) (newResponse [])
      sampleReq zeroMetrics).outcome = Outcome.panicked ∧
    (ServeHTTP (sampleEnv (some sampleService) (some { Subsets := [] }) rnd) (newResponse [])
      sampleReq zeroMetrics).resp.status = none ∧
    selections (ServeHTTP (sampleEnv (some sampleService) (some { Subsets := [] }) rnd)
      (newResponse []) sampleReq zeroMetrics).trace = [0] := by
  have hd : decodeHost sampleReq.Host = some { Namespace := "bar", Name := "foo" } := by
    decide
  have hr : (addrsForServicePort (sampleBalancer (some sampleService) (some { Subsets := [] }))
      { Namespace := "bar", Name := "foo" } (int32 servePort) zeroMetrics).result
        = .ok ([], 0) := by decide
  rw [ServeHTTP_of_decodeHost _ _ sampleReq _ _ (by decide) hd]
  refine ⟨hr, ?_, ?_, ?_⟩ <;>
    simp [serveResolved, sampleEnv, hr, Intn, newResponse, selections_append,
      (addrsForServicePort_trace _ _ _ _).2.2, selections]

/-! ## Selection and forwarding -/

theorem Intn_length (rnd : Nat) (addrs : List String) (hne : addrs ≠ []) :
    Intn rnd addrs.length = some (rnd % addrs.length) := by
  have hpos : 0 < addrs.length := List.length_pos.mpr hne
  have h : ¬ ((addrs.length : Int) ≤ 0) := by omega
  simp [Intn, h]

theorem serveResolved_of_ok (env : Env) (resp : ResponseWriter) (req : Request)
    (m : Metrics) (svcName : NamespacedName) (addrs : List String) (p : Int)
    (hres : (addrsForServicePort env.b svcName (int32 servePort) m).result = .ok (addrs, p))
    (hne : addrs ≠ []) :
    ∃ a ∈ addrs, serveResolved env resp req m svcName =
      forwardTo env resp req (addrsForServicePort env.b svcName (int32 servePort) m)
        addrs.length svcName a p := by
  have hpos : 0 < addrs.length := List.length_pos.mpr hne
  have hlt : env.rnd % addrs.length < addrs.length := Nat.mod_lt _ hpos
  refine ⟨addrs.get ⟨env.rnd % addrs.length, hlt⟩, List.get_mem _ _ _, ?_⟩
  unfold serveResolved forwardTo backendURLFor
  simp only [hres, Intn_length env.rnd addrs hne, List.get?_eq_get hlt]

theorem serveResolved_of_empty (env : Env) (resp : ResponseWriter) (req : Request)
    (m : Metrics) (svcName : NamespacedName) (p : Int)
    (hres : (addrsForServicePort env.b svcName (int32 servePort) m).result = .ok ([], p)) :
    serveResolved env resp req m svcName =
      { outcome := .panicked, resp := resp,
        metrics := (addrsForServicePort env.b svcName (int32 servePort) m).metrics,
        trace := (addrsForServicePort env.b svcName (int32 servePort) m).trace ++
          [Event.randIntn 0] } := by
  unfold serveResolved
  simp [hres, Intn]

theorem forwardTo_downstream (env : Env) (resp : ResponseWriter) (req : Request)
    (r : Resolution) (n : Nat) (svcName : NamespacedName) (a : String) (p : Int)
    (hr : downstream r.trace = []) :
    downstream (forwardTo env resp req r n svcName a p).trace =
      match env.newRequest MethodGet (backendURLFor req.URL a p).String with
      | .ok backendReq => [backendReq]
      | .error _ => [] := by
  unfold forwardTo
  split
  · rename_i e he
    simp [he, downstream_append, hr, downstream]
  · rename_i backendReq he
    split <;> simp [he, downstream_append, hr, downstream]

theorem forwardTo_constructed (env : Env) (resp : ResponseWriter) (req : Request)
    (r : Resolution) (n : Nat) (svcName : NamespacedName) (a : String) (p : Int)
    (hr : constructed r.trace = []) :
    constructed (forwardTo env resp req r n svcName a p).trace =
      [(MethodGet, (backendURLFor req.URL a p).String)] := by
  unfold forwardTo
  split
  · simp [constructed_append, hr, constructed]
  · split <;> simp [constructed_append, hr, constructed]

/-! ## Percent-encoding -/

theorem upperhex_spec (k : Nat) (h : k < 16) :
    unhex (upperhex k) = k ∧ ishex (upperhex k) = true := by
  interval_cases k <;> decide

theorem shouldEscape_percent (mode : encoding) : shouldEscape '%' mode = true := by
  cases mode <;> decide

theorem ofNat_hex (c : Char) (h : c.toNat < 256) :
    Char.ofNat (unhex (upperhex (c.toNat / 16)) * 16 + unhex (upperhex (c.toNat % 16))) = c := by
  have h1 : c.toNat / 16 < 16 := by omega
  have h2 : c.toNat % 16 < 16 := by omega
  rw [(upperhex_spec _ h1).1, (upperhex_spec _ h2).1, Nat.div_add_mod' c.toNat 16,
    Char.ofNat_toNat]

theorem escape_cons (mode : encoding) (c : Char) (s : List Char) :
    escape mode (c :: s) = escapeChar mode c ++ escape mode s := by
  simp [escape]

theorem mem_escape (mode : encoding) (x : Char) (s : List Char) (hx : x ∈ escape mode s) :
    x = '%' ∨ ishex x = true ∨ x = '+' ∨ (x ∈ s ∧ shouldEscape x mode = false) := by
  induction s with
  | nil => simp [escape] at hx
  | cons c s ih =>
    rw [escape_cons, List.mem_append] at hx
    rcases hx with hx | hx
    · unfold escapeChar at hx
      cases hc : shouldEscape c mode with
      | true =>
        simp only [hc, if_true] at hx
        split at hx
        · simp only [List.mem_singleton] at hx
          exact Or.inr (Or.inr (Or.inl hx))
        · have hb1 : c.toNat % 16 < 16 := by omega
          simp only [List.mem_cons, List.mem_nil_iff, or_false] at hx
          rcases hx with hx | hx | hx
          · exact Or.inl hx
          · by_cases hd : c.toNat / 16 < 16
            · exact Or.inr (Or.inl (hx ▸ (upperhex_spec _ hd).2))
            · right; left
              have : upperhex (c.toNat / 16) = '0' := by
                unfold upperhex
                exact List.getD_eq_default _ _ (by simpa using Nat.le_of_not_lt hd)
              rw [hx, this]; decide
          · exact Or.inr (Or.inl (hx ▸ (upperhex_spec _ hb1).2))
      | false =>
        simp only [hc, Bool.false_eq_true, if_false, List.mem_singleton] at hx
        subst hx
        exact Or.inr (Or.inr (Or.inr ⟨by simp, hc⟩))
    · rcases ih hx with h | h | h | h
      · exact Or.inl h
      · exact Or.inr (Or.inl h)
      · exact Or.inr (Or.inr (Or.inl h))
      · exact Or.inr (Or.inr (Or.inr ⟨by simp [h.1], h.2⟩))

theorem not_mem_escape (mode : encoding) (x : Char) (s : List Char) (h1 : x ≠ '%')
    (h2 : ishex x = false) (h3 : x ≠ '+') (h4 : shouldEscape x mode = true) :
    x ∉ escape mode s := by
  intro hx
  rcases mem_escape mode x s hx with h | h | h | h
  · exact h1 h
  · rw [h2] at h; exact absurd h (by decide)
  · exact h3 h
  · rw [h4] at h; exact absurd h.2 (by decide)

theorem not_mem_of_validEncoded (mode : encoding) (x : Char) (s : List Char)
    (hv : validEncoded mode s = true) (hx : validEncoded mode [x] = false) : x ∉ s := by
  intro hmem
  unfold validEncoded at hv hx
  rw [List.all_eq_true] at hv
  have := hv x hmem
  simp only [List.all_cons, List.all_nil, Bool.and_true] at hx
  rw [hx] at this
  exact absurd this (by decide)

theorem decode_escape (mode : encoding) (hq : mode ≠ encoding.encodeQueryComponent)
    (s : List Char) (hb : ∀ c ∈ s, c.toNat < 256) : decode (escape mode s) = s := by
  induction s with
  | nil => rfl
  | cons c s ih =>
    have hc : c.toNat < 256 := hb c (by simp)
    have ih2 := ih fun x hx => hb x (by simp [hx])
    rw [escape_cons]
    unfold escapeChar
    cases he : shouldEscape c mode with
    | true =>
      have hnq : ¬ (c = ' ' ∧ mode = encoding.encodeQueryComponent) := fun h => hq h.2
      simp only [if_true, hnq, if_false, List.cons_append, List.nil_append]
      simp only [decode, if_true, ofNat_hex c hc, ih2]
    | false =>
      have hp : c ≠ '%' := fun h => by
        rw [h, shouldEscape_percent] at he
        exact absurd he (by decide)
      simp only [Bool.false_eq_true, if_false, List.cons_append, List.nil_append]
      rw [decode.eq_def]
      simp only [hp, if_false, ih2]

theorem unescape_escape_path (s : List Char) (hb : ∀ c ∈ s, c.toNat < 256) :
    unescape .encodePath (escape .encodePath s) = .ok s := by
  induction s with
  | nil => rfl
  | cons c s ih =>
    have hc : c.toNat < 256 := hb c (by simp)
    have ih2 := ih fun x hx => hb x (by simp [hx])
    rw [escape_cons]
    unfold escapeChar
    cases he : shouldEscape c .encodePath with
    | true =>
      have h1 : c.toNat / 16 < 16 := by omega
      have h2 : c.toNat % 16 < 16 := by omega
      simp only [if_true, reduceCtorEq, and_false, if_false, List.cons_append,
        List.nil_append]
      simp only [unescape, if_true, (upperhex_spec _ h1).2, (upperhex_spec _ h2).2, and_self,
        not_true_eq_false, if_false, reduceCtorEq, false_and, ih2, ofNat_hex c hc]
    | false =>
      have hp : c ≠ '%' := fun h => by
        rw [h, shouldEscape_percent] at he
        exact absurd he (by decide)
      simp only [Bool.false_eq_true, if_false, List.cons_append, List.nil_append]
      rw [unescape.eq_def]
      by_cases hplus : c = '+'
      · simp only [hp, if_false, hplus, if_true, reduceCtorEq, ih2]
        rw [if_neg (by decide)]
      · simp only [hp, if_false, hplus, reduceCtorEq, false_or, false_and, ih2]

theorem unescape_decode_aux (mode : encoding) (hq : mode ≠ encoding.encodeQueryComponent) :
    ∀ (n : Nat) (s t : List Char), s.length ≤ n → unescape mode s = .ok t →
      t = decode s ∧ ∀ y, decode (s ++ y) = decode s ++ decode y := by
  intro n
  induction n with
  | zero =>
    intro s t hl h
    have hs : s = [] := List.length_eq_zero.mp (Nat.le_zero.mp hl)
    subst hs
    rw [unescape.eq_def] at h
    simp only [Except.ok.injEq] at h
    subst h
    exact ⟨rfl, fun y => rfl⟩
  | succ n ih =>
    intro s t hl h
    cases s with
    | nil =>
      rw [unescape.eq_def] at h
      simp only [Except.ok.injEq] at h
      subst h
      exact ⟨rfl, fun y => rfl⟩
    | cons c rest =>
      rw [unescape.eq_def] at h
      simp only [] at h
      by_cases hc : c = '%'
      · subst hc
        simp only [if_true] at h
        cases rest with
        | nil => simp at h
        | cons h1 r2 =>
          cases r2 with
          | nil => simp at h
          | cons h2 t2 =>
            simp only [] at h
            split at h
            · cases h
            · split at h
              · cases h
              · split at h
                · cases h
                · cases hr : unescape mode t2 with
                  | error e => rw [hr] at h; cases h
                  | ok r =>
                    rw [hr] at h
                    simp only [Except.ok.injEq] at h
                    have hl2 : t2.length ≤ n := by
                      simp only [List.length_cons] at hl
                      omega
                    obtain ⟨e1, e2⟩ := ih t2 r hl2 hr
                    subst h
                    refine ⟨?_, fun y => ?_⟩
                    · rw [decode.eq_def]
                      simp only [if_true, e1]
                    · rw [decode.eq_def]
                      simp only [List.cons_append, if_true, e2 y]
                      conv_rhs => rw [decode.eq_def]
                      simp only [if_true, List.cons_append]
      · simp only [hc, if_false] at h
        have hl2 : rest.length ≤ n := by
          simp only [List.length_cons] at hl
          omega
        have key : ∀ r, unescape mode rest = .ok r →
            (c :: r = decode (c :: rest) ∧
              ∀ y, decode (c :: rest ++ y) = decode (c :: rest) ++ decode y) := by
          intro r hr
          obtain ⟨e1, e2⟩ := ih rest r hl2 hr
          refine ⟨?_, fun y => ?_⟩
          · rw [decode.eq_def]
            simp only [hc, if_false, e1]
          · rw [decode.eq_def]
            simp only [List.cons_append, hc, if_false, e2 y]
            conv_rhs => rw [decode.eq_def]
            simp only [hc, if_false, List.cons_append]
        split at h
        · rename_i hplus
          cases hr : unescape mode rest with
          | error e => rw [hr] at h; cases h
          | ok r =>
            rw [hr] at h
            simp only [hq, if_false, Except.ok.injEq] at h
            subst h
            subst hplus
            exact key r hr
        · split at h
          · cases h
          · cases hr : unescape mode rest with
            | error e => rw [hr] at h; cases h
            | ok r =>
              rw [hr] at h
              simp only [Except.ok.injEq] at h
              subst h
              exact key r hr

theorem unescape_decode (mode : encoding) (hq : mode ≠ encoding.encodeQueryComponent)
    (s t : List Char) (h : unescape mode s = .ok t) : t = decode s :=
  (unescape_decode_aux mode hq s.length s t (Nat.le_refl _) h).1

theorem decode_append (mode : encoding) (hq : mode ≠ encoding.encodeQueryComponent)
    (s t y : List Char) (h : unescape mode s = .ok t) :
    decode (s ++ y) = decode s ++ decode y :=
  (unescape_decode_aux mode hq s.length s t (Nat.le_refl _) h).2 y

/-! ## Index and Cut -/

theorem IndexString_le (substr s : List Char) (z : Nat)
    (h : IndexString substr s = some z) : z ≤ s.length := by
  induction s generalizing z with
  | nil =>
    unfold IndexString at h
    split at h
    · simp only [Option.some.injEq] at h
      omega
    · cases h
  | cons c cs ih =>
    unfold IndexString at h
    split at h
    · simp only [Option.some.injEq] at h
      omega
    · cases hi : IndexString substr cs with
      | none => rw [hi] at h; cases h
      | some k =>
        rw [hi] at h
        simp only [Option.map_some', Option.some.injEq] at h
        have := ih k hi
        simp only [List.length_cons]
        omega

theorem parseHost_decode (e host : List Char) (h : parseHost e = .ok host) :
    host = decode e := by
  have hH : encoding.encodeHost ≠ encoding.encodeQueryComponent := by decide
  have hZ : encoding.encodeZone ≠ encoding.encodeQueryComponent := by decide
  unfold parseHost at h
  split at h
  · split at h
    · cases h
    · rename_i i hi
      split at h
      · cases h
      · split at h
        · rename_i zone hz
          split at h
          · cases h
          · rename_i host1 h1
            split at h
            · cases h
            · rename_i host2 h2
              split at h
              · cases h
              · rename_i host3 h3
                simp only [Except.ok.injEq] at h
                subst h
                have hzl : zone ≤ (e.take i).length := IndexString_le _ _ _ hz
                have hzi : zone ≤ i := by
                  simp only [List.length_take] at hzl
                  omega
                have e1 : e.take zone = (e.take i).take zone := by
                  rw [List.take_take, Nat.min_eq_left hzi]
                have hsplit : e = e.take zone ++ ((e.take i).drop zone ++ e.drop i) := by
                  rw [e1, ← List.append_assoc, List.take_append_drop, List.take_append_drop]
                rw [unescape_decode _ hH _ _ h1, unescape_decode _ hZ _ _ h2,
                  unescape_decode _ hH _ _ h3]
                conv_rhs => rw [hsplit]
                rw [decode_append _ hH _ _ _ h1, decode_append _ hZ _ _ _ h2,
                  List.append_assoc]
        · exact unescape_decode _ hH _ _ h
  · split at h
    · split at h
      · cases h
      · exact unescape_decode _ hH _ _ h
    · exact unescape_decode _ hH _ _ h

theorem Cut_append_of_not_mem (sep : Char) (a b : List Char) (h : sep ∉ a) :
    Cut sep (a ++ b) = (a ++ (Cut sep b).1, (Cut sep b).2.1, (Cut sep b).2.2) := by
  induction a with
  | nil => rfl
  | cons c cs ih =>
    have hc : c ≠ sep := fun e => h (by simp [e])
    have hcs : sep ∉ cs := fun e => h (by simp [e])
    simp only [List.cons_append, Cut, hc, if_false, List.append_eq, ih hcs]

theorem Cut_nil (sep : Char) : Cut sep [] = ([], [], false) := rfl

theorem Cut_cons_self (sep : Char) (b : List Char) : Cut sep (sep :: b) = ([], b, true) := by
  simp [Cut]

theorem Cut_of_not_mem (sep : Char) (a : List Char) (h : sep ∉ a) :
    Cut sep a = (a, [], false) := by
  have := Cut_append_of_not_mem sep a [] h
  simpa [Cut_nil] using this

theorem Cut_fst_append_sep (sep : Char) (a b : List Char) :
    (Cut sep (a ++ sep :: b)).1 = (Cut sep a).1 := by
  induction a with
  | nil => simp [Cut]
  | cons c cs ih =>
    by_cases hc : c = sep
    · simp [Cut, hc]
    · simp only [List.cons_append, Cut, hc, if_false, List.append_eq, ih]

theorem Index_of_not_mem (sep : Char) (a : List Char) (h : sep ∉ a) : Index sep a = none := by
  induction a with
  | nil => rfl
  | cons c cs ih =>
    have hc : c ≠ sep := fun e => h (by simp [e])
    have hcs : sep ∉ cs := fun e => h (by simp [e])
    simp [Index, hc, ih hcs]

theorem Index_append_sep (sep : Char) (a b : List Char) (h : sep ∉ a) :
    Index sep (a ++ sep :: b) = some a.length := by
  induction a with
  | nil => simp [Index]
  | cons c cs ih =>
    have hc : c ≠ sep := fun e => h (by simp [e])
    have hcs : sep ∉ cs := fun e => h (by simp [e])
    simp [Index, hc, ih hcs]

theorem LastIndex_of_not_mem (sep : Char) (a : List Char) (h : sep ∉ a) :
    LastIndex sep a = none := by
  induction a with
  | nil => rfl
  | cons c cs ih =>
    have hc : c ≠ sep := fun e => h (by simp [e])
    have hcs : sep ∉ cs := fun e => h (by simp [e])
    simp [LastIndex, hc, ih hcs]

theorem LastIndex_append_sep (sep : Char) (a b : List Char) (h : sep ∉ b) :
    LastIndex sep (a ++ sep :: b) = some a.length := by
  induction a with
  | nil => simp [LastIndex, LastIndex_of_not_mem sep b h]
  | cons c cs ih => simp [LastIndex, ih]

/-! ## Parsing what `String` wrote -/

theorem parseAuthority_host (ui : Option (String × Option String)) (E : List Char)
    (hat : '@' ∉ E) (user : Option (String × Option String)) (host : List Char)
    (h : parseAuthority
      ((match ui with
        | some x => userinfoString x ++ ['@']
        | none => []) ++ E) = .ok (user, host)) :
    parseHost E = .ok host := by
  unfold parseAuthority at h
  cases ui with
  | none =>
    simp only [List.nil_append, LastIndex_of_not_mem '@' E hat] at h
    split at h
    · cases h
    · rename_i host2 hh
      simp only [Except.ok.injEq, Prod.mk.injEq] at h
      rw [hh, h.2]
  | some x =>
    simp only [List.append_assoc, List.singleton_append,
      LastIndex_append_sep '@' (userinfoString x) E hat] at h
    have hd : (userinfoString x ++ '@' :: E).drop ((userinfoString x).length + 1) = E := by
      rw [show userinfoString x ++ '@' :: E = (userinfoString x ++ ['@']) ++ E by simp]
      rw [List.drop_left' (by simp)]
    rw [hd] at h
    split at h
    · cases h
    · rename_i host2 hh
      rw [hh]
      split at h
      · cases h
      · split at h
        · split at h
          · cases h
          · simp only [Except.ok.injEq, Prod.mk.injEq] at h
            rw [h.2]
        · split at h
          · cases h
          · split at h
            · cases h
            · simp only [Except.ok.injEq, Prod.mk.injEq] at h
              rw [h.2]

theorem query_split (X Q : List Char) (hX : '?' ∉ X) (hQ : Q = [] ∨ Q.head? = some '?') :
    (if decide ((X ++ Q).getLast? = some '?' ∧ Count '?' (X ++ Q) = 1) = true
      then (X ++ Q).dropLast else (Cut '?' (X ++ Q)).1) = X ∧
    (if decide ((X ++ Q).getLast? = some '?' ∧ Count '?' (X ++ Q) = 1) = true
      then [] else (Cut '?' (X ++ Q)).2.1) = Q.drop 1 := by
  rcases hQ with hQ | hQ
  · subst hQ
    have hl : X.getLast? ≠ some '?' := fun e => hX (List.mem_of_getLast?_eq_some e)
    simp [hl, Cut_of_not_mem '?' X hX]
  · cases Q with
    | nil => simp at hQ
    | cons c qb =>
      simp only [List.head?_cons, Option.some.injEq] at hQ
      subst hQ
      by_cases hf : (X ++ '?' :: qb).getLast? = some '?' ∧ Count '?' (X ++ '?' :: qb) = 1
      · have hcount : List.count '?' qb = 0 := by
          have := hf.2
          simp only [Count, List.count_append, List.count_cons_self,
            List.count_eq_zero_of_not_mem hX] at this
          omega
        have hqb : qb = [] := by
          by_contra hne
          have hl : (X ++ '?' :: qb).getLast? = qb.getLast? := by
            rw [show X ++ '?' :: qb = (X ++ ['?']) ++ qb by simp]
            rw [List.getLast?_append_of_ne_nil _ hne]
          rw [hl] at hf
          exact (List.count_eq_zero.mp hcount) (List.mem_of_getLast?_eq_some hf.1)
        subst hqb
        simp only [hf, and_self, decide_True, if_true, List.drop_succ_cons, List.drop_nil,
          and_true]
        rw [show X ++ ['?'] = X ++ ['?'] from rfl, List.dropLast_concat]
      · simp only [hf, decide_False, Bool.false_eq_true, if_false,
          Cut_append_of_not_mem '?' X _ hX, Cut_cons_self, List.append_nil,
          List.drop_succ_cons, List.drop_zero, and_self]

theorem setPath_ok (u url : URL) (p : List Char) (h : setPath u p = .ok url) :
    ∃ path, unescape .encodePath p = .ok path ∧ url.Path = String.mk path ∧
      url.Scheme = u.Scheme ∧ url.Opaque = u.Opaque ∧ url.Host = u.Host ∧
      url.RawQuery = u.RawQuery := by
  unfold setPath at h
  split at h
  · cases h
  · rename_i path hp
    simp only [Except.ok.injEq] at h
    subst h
    exact ⟨path, hp, rfl, rfl, rfl, rfl, rfl⟩

theorem parseHier_authority (u url : URL) (A T : List Char) (hu : u.Scheme ≠ "")
    (hA : '/' ∉ A) (hT : T = [] ∨ T.head? = some '/')
    (h : parseHier u ('/' :: '/' :: (A ++ T)) false = .ok url) :
    ∃ user host path, parseAuthority A = .ok (user, host) ∧
      unescape .encodePath T = .ok path ∧
      url.Scheme = u.Scheme ∧ url.Opaque = u.Opaque ∧ url.Host = String.mk host ∧
      url.Path = String.mk path ∧ url.RawQuery = u.RawQuery := by
  unfold parseHier at h
  rw [if_neg (by simp), if_neg (by simp), if_neg (by simp), if_pos (by simp [hu])] at h
  simp only [List.drop_succ_cons, List.drop_zero] at h
  rcases hT with hT | hT
  · subst hT
    simp only [List.append_nil, Index_of_not_mem '/' A hA] at h
    split at h
    · cases h
    · rename_i user host hpa
      obtain ⟨path, h1, h2, h3, h4, h5, h6⟩ := setPath_ok _ _ _ h
      exact ⟨user, host, path, hpa, h1, h3, h4, h5, h2, h6⟩
  · cases T with
    | nil => simp at hT
    | cons c T2 =>
      simp only [List.head?_cons, Option.some.injEq] at hT
      subst hT
      simp only [Index_append_sep '/' A T2 hA, List.take_left', List.drop_left'] at h
      split at h
      · cases h
      · rename_i user host hpa
        obtain ⟨path, h1, h2, h3, h4, h5, h6⟩ := setPath_ok _ _ _ h
        exact ⟨user, host, path, hpa, h1, h3, h4, h5, h2, h6⟩

theorem toLower_http : toLower ['h', 't', 't', 'p'] = ['h', 't', 't', 'p'] := by decide

theorem parse_http (A T Q : List Char) (hA1 : '/' ∉ A) (hA2 : '?' ∉ A) (hT1 : '?' ∉ T)
    (hT2 : T = [] ∨ T.head? = some '/') (hQ : Q = [] ∨ Q.head? = some '?') (url : URL)
    (h : parse ('h' :: 't' :: 't' :: 'p' :: ':' :: '/' :: '/' :: (A ++ T ++ Q)) false
      = .ok url) :
    ∃ user host path, parseAuthority A = .ok (user, host) ∧
      unescape .encodePath T = .ok path ∧
      url.Scheme = "http" ∧ url.Opaque = "" ∧ url.Host = String.mk host ∧
      url.Path = String.mk path ∧ url.RawQuery = String.mk (Q.drop 1) := by
  have hX : '?' ∉ '/' :: '/' :: (A ++ T) := by
    simp only [List.mem_cons, List.mem_append, not_or]
    exact ⟨by decide, by decide, hA2, hT1⟩
  obtain ⟨q1, q2⟩ := query_split ('/' :: '/' :: (A ++ T)) Q hX hQ
  have hgs : getScheme ('h' :: 't' :: 't' :: 'p' :: ':' :: '/' :: '/' :: (A ++ T ++ Q))
      = .ok (['h', 't', 't', 'p'], '/' :: '/' :: (A ++ T) ++ Q) := by
    simp [getScheme, getSchemeLoop, isLetter, isDigit]
  have hne : (String.mk ['h', 't', 't', 'p']) ≠ "" := by decide
  unfold parse at h
  split at h
  · cases h
  · rw [if_neg (by simp), if_neg (by simp), hgs] at h
    simp only [toLower_http] at h
    by_cases hf : ('/' :: '/' :: (A ++ T) ++ Q).getLast? = some '?' ∧
        Count '?' ('/' :: '/' :: (A ++ T) ++ Q) = 1
    · simp only [hf, and_self, decide_True, if_true] at q1 q2
      rw [if_pos hf, q1] at h
      obtain ⟨user, host, path, h1, h2, h3, h4, h5, h6, h7⟩ :=
        parseHier_authority _ url A T hne hA1 hT2 h
      refine ⟨user, host, path, h1, h2, h3, h4, h5, h6, ?_⟩
      rw [h7, ← q2]
      rfl
    · simp only [hf, decide_False, Bool.false_eq_true, if_false] at q1 q2
      rw [if_neg hf, q1, q2] at h
      obtain ⟨user, host, path, h1, h2, h3, h4, h5, h6, h7⟩ :=
        parseHier_authority _ url A T hne hA1 hT2 h
      exact ⟨user, host, path, h1, h2, h3, h4, h5, h6, h7⟩

theorem not_mem_userinfoPart (x : Char) (ui : Option (String × Option String)) (h1 : x ≠ '%')
    (h2 : ishex x = false) (h3 : x ≠ '+')
    (h4 : shouldEscape x .encodeUserPassword = true) (h5 : x ≠ ':') (h6 : x ≠ '@') :
    x ∉ userinfoPart ui := by
  have he := fun s => not_mem_escape .encodeUserPassword x s h1 h2 h3 h4
  cases ui with
  | none => simp [userinfoPart]
  | some v =>
    obtain ⟨name, pw⟩ := v
    cases pw with
    | none => simp [userinfoPart, userinfoString, he, h6]
    | some p => simp [userinfoPart, userinfoString, he, h5, h6]

theorem not_mem_EscapedPath (x : Char) (u : URL) (h1 : x ≠ '%') (h2 : ishex x = false)
    (h3 : x ≠ '+') (h4 : shouldEscape x .encodePath = true)
    (h5 : validEncoded .encodePath [x] = false) (h6 : x ≠ '*') : x ∉ u.EscapedPath := by
  unfold URL.EscapedPath
  split
  · rename_i hc
    exact not_mem_of_validEncoded _ x _ hc.2.1 h5
  · split
    · simp [h6]
    · exact not_mem_escape _ x _ h1 h2 h3 h4

theorem unescape_EscapedPath (u : URL) (hb : IsBytes u.Path) :
    unescape .encodePath u.EscapedPath = .ok u.Path.data := by
  unfold URL.EscapedPath
  split
  · rename_i hc
    exact hc.2.2
  · split
    · rename_i hs
      rw [hs]
      decide
    · exact unescape_escape_path _ hb

theorem unescape_slash (p path : List Char) (h : unescape .encodePath p = .ok path) :
    unescape .encodePath ('/' :: p) = .ok ('/' :: path) := by
  rw [unescape.eq_def]
  simp only [h]
  rw [if_neg (by decide), if_neg (by decide), if_neg (by simp)]

theorem Cut_hash_queryFragment (u : URL) :
    ((Cut '#' u.queryFragment).1 = [] ∨ (Cut '#' u.queryFragment).1.head? = some '?') ∧
    (Cut '#' u.queryFragment).1.drop 1 = (Cut '#' u.RawQuery.data).1 := by
  unfold URL.queryFragment
  by_cases hq : u.ForceQuery = true ∨ u.RawQuery ≠ ""
  · simp only [hq, if_true]
    have key : (Cut '#' ('?' :: u.RawQuery.data ++
        if u.Fragment ≠ "" then '#' :: u.EscapedFragment else [])).1
        = '?' :: (Cut '#' u.RawQuery.data).1 := by
      split
      · rw [show '?' :: u.RawQuery.data ++ '#' :: u.EscapedFragment
            = ('?' :: u.RawQuery.data) ++ '#' :: u.EscapedFragment from rfl,
          Cut_fst_append_sep]
        simp [Cut]
      · simp [Cut]
    rw [key]
    simp
  · simp only [hq, if_false, List.nil_append]
    have hr : u.RawQuery = "" := by
      by_contra hne
      exact hq (Or.inr hne)
    rw [hr]
    split <;> simp [Cut]

theorem Parse_http (A T QF : List Char) (hA1 : '/' ∉ A) (hA2 : '?' ∉ A) (hA3 : '#' ∉ A)
    (hT1 : '?' ∉ T) (hT2 : T = [] ∨ T.head? = some '/') (hT3 : '#' ∉ T)
    (hQ : (Cut '#' QF).1 = [] ∨ (Cut '#' QF).1.head? = some '?') (url : URL)
    (h : Parse (String.mk ('h' :: 't' :: 't' :: 'p' :: ':' :: '/' :: '/' :: (A ++ T ++ QF)))
      = .ok url) :
    ∃ user host path, parseAuthority A = .ok (user, host) ∧
      unescape .encodePath T = .ok path ∧
      url.Scheme = "http" ∧ url.Opaque = "" ∧ url.Host = String.mk host ∧
      url.Path = String.mk path ∧ url.RawQuery = String.mk ((Cut '#' QF).1.drop 1) := by
  have hP : '#' ∉ 'h' :: 't' :: 't' :: 'p' :: ':' :: '/' :: '/' :: (A ++ T) := by
    simp only [List.mem_cons, List.mem_append, not_or]
    exact ⟨by decide, by decide, by decide, by decide, by decide, by decide, by decide,
      hA3, hT3⟩
  have hcut := Cut_append_of_not_mem '#' _ QF hP
  unfold Parse at h
  simp only [show 'h' :: 't' :: 't' :: 'p' :: ':' :: '/' :: '/' :: (A ++ T ++ QF)
    = ('h' :: 't' :: 't' :: 'p' :: ':' :: '/' :: '/' :: (A ++ T)) ++ QF by simp, hcut] at h
  split at h
  · cases h
  · rename_i url0 hp
    have hp2 : parse ('h' :: 't' :: 't' :: 'p' :: ':' :: '/' :: '/' ::
        (A ++ T ++ (Cut '#' QF).1)) false = .ok url0 := by
      rw [← hp]
      simp
    obtain ⟨user, host, path, h1, h2, h3, h4, h5, h6, h7⟩ :=
      parse_http A T _ hA1 hA2 hT1 hT2 hQ url0 hp2
    split at h
    · simp only [Except.ok.injEq] at h
      subst h
      exact ⟨user, host, path, h1, h2, h3, h4, h5, h6, h7⟩
    · unfold setFragment at h
      split at h
      · cases h
      · simp only [Except.ok.injEq] at h
        subst h
        exact ⟨user, host, path, h1, h2, h3, h4, h5, h6, h7⟩

/-! ## The request built from the backend URL -/

theorem String_http (u : URL) (hS : u.Scheme = "http") (hO : u.Opaque = "")
    (hH : u.Host ≠ "") :
    u.String = String.mk ('h' :: 't' :: 't' :: 'p' :: ':' :: '/' :: '/' ::
      ((userinfoPart u.User ++ escape .encodeHost u.Host.data) ++
        ((leadingSlash u).data ++ u.EscapedPath) ++ u.queryFragment)) := by
  have hb : u.beforePath = 'h' :: 't' :: 't' :: 'p' :: ':' :: '/' :: '/' ::
      ((userinfoPart u.User ++ escape .encodeHost u.Host.data) ++ (leadingSlash u).data) := by
    unfold URL.beforePath leadingSlash userinfoPart
    have hs : ¬ ("http" : String) = "" := by decide
    simp only [hS, hH, ne_eq, hs, not_false_eq_true, if_true, false_and, and_false,
      if_false, true_or, and_true, or_true]
    cases u.User <;>
      by_cases hc : (¬u.EscapedPath = [] ∧ ¬u.EscapedPath.head? = some '/') <;> simp [hc]
  unfold URL.String
  rw [if_neg (by simp [hO]), hb]
  simp

theorem NewRequest_String (u : URL) (r : BackendRequest) (hS : u.Scheme = "http")
    (hO : u.Opaque = "") (hH : u.Host ≠ "") (hbH : IsBytes u.Host) (hbP : IsBytes u.Path)
    (hport : removeEmptyPort u.Host.data = u.Host.data)
    (h : NewRequest MethodGet u.String = .ok r) :
    r.Method = "GET" ∧ r.URL.Scheme = "http" ∧ r.URL.Host = u.Host ∧
      r.URL.Path = leadingSlash u ++ u.Path ∧ r.URL.RawQuery = beforeHash u.RawQuery := by
  unfold NewRequest at h
  rw [if_neg (by decide)] at h
  rw [if_neg (by decide)] at h
  split at h
  · cases h
  · rename_i url hp
    simp only [Except.ok.injEq] at h
    subst h
    rw [String_http u hS hO hH] at hp
    have hE := fun x h1 h2 h3 h4 => not_mem_escape .encodeHost x u.Host.data h1 h2 h3 h4
    have hU := fun x h1 h2 h3 h4 h5 h6 => not_mem_userinfoPart x u.User h1 h2 h3 h4 h5 h6
    have hP := fun x h1 h2 h3 h4 h5 h6 => not_mem_EscapedPath x u h1 h2 h3 h4 h5 h6
    have hA1 : '/' ∉ userinfoPart u.User ++ escape .encodeHost u.Host.data := by
      simp only [List.mem_append, not_or]
      exact ⟨hU '/' (by decide) (by decide) (by decide) (by decide) (by decide) (by decide),
        hE '/' (by decide) (by decide) (by decide) (by decide)⟩
    have hA2 : '?' ∉ userinfoPart u.User ++ escape .encodeHost u.Host.data := by
      simp only [List.mem_append, not_or]
      exact ⟨hU '?' (by decide) (by decide) (by decide) (by decide) (by decide) (by decide),
        hE '?' (by decide) (by decide) (by decide) (by decide)⟩
    have hA3 : '#' ∉ userinfoPart u.User ++ escape .encodeHost u.Host.data := by
      simp only [List.mem_append, not_or]
      exact ⟨hU '#' (by decide) (by decide) (by decide) (by decide) (by decide) (by decide),
        hE '#' (by decide) (by decide) (by decide) (by decide)⟩
    have hsl : (leadingSlash u).data = [] ∨ (leadingSlash u).data = ['/'] := by
      unfold leadingSlash
      split
      · exact Or.inr rfl
      · exact Or.inl rfl
    have hT1 : '?' ∉ (leadingSlash u).data ++ u.EscapedPath := by
      have := hP '?' (by decide) (by decide) (by decide) (by decide) (by decide) (by decide)
      rcases hsl with e | e <;> simp [e, this]
    have hT3 : '#' ∉ (leadingSlash u).data ++ u.EscapedPath := by
      have := hP '#' (by decide) (by decide) (by decide) (by decide) (by decide) (by decide)
      rcases hsl with e | e <;> simp [e, this]
    have hT2 : (leadingSlash u).data ++ u.EscapedPath = [] ∨
        ((leadingSlash u).data ++ u.EscapedPath).head? = some '/' := by
      unfold leadingSlash
      split
      · exact Or.inr rfl
      · rename_i hc
        simp only [not_and, not_not] at hc
        by_cases hemp : u.EscapedPath = []
        · left
          simp [hemp]
        · right
          simpa using hc hemp
    obtain ⟨hQ1, hQ2⟩ := Cut_hash_queryFragment u
    obtain ⟨user, host, path, h1, h2, h3, _, h5, h6, h7⟩ :=
      Parse_http _ _ _ hA1 hA2 hA3 hT1 hT2 hT3 hQ1 url hp
    have hat : '@' ∉ escape .encodeHost u.Host.data :=
      hE '@' (by decide) (by decide) (by decide) (by decide)
    have hhost : host = u.Host.data := by
      have := parseHost_decode _ _ (parseAuthority_host u.User _ hat user host h1)
      rw [this, decode_escape _ (by decide) _ hbH]
    have hpath : path = (leadingSlash u).data ++ u.Path.data := by
      have hep := unescape_EscapedPath u hbP
      rcases hsl with e | e
      · rw [e, List.nil_append] at h2 ⊢
        rw [hep] at h2
        exact (Except.ok.inj h2).symm
      · rw [e] at h2 ⊢
        rw [show ['/'] ++ u.EscapedPath = '/' :: u.EscapedPath from rfl,
          unescape_slash _ _ hep] at h2
        exact (Except.ok.inj h2).symm
    refine ⟨rfl, h3, ?_, ?_, ?_⟩
    · show String.mk (removeEmptyPort url.Host.data) = u.Host
      rw [h5, hhost, hport]
    · rw [h6, hpath]
      rfl
    · rw [h7, hQ2]
      rfl

/-! ## The host `net.JoinHostPort` builds -/

theorem digitChar_spec (k : Nat) (h : k < 10) :
    Nat.digitChar k ≠ ':' ∧ (Nat.digitChar k).toNat < 256 := by
  interval_cases k <;> decide

theorem toDigitsCore_spec (fuel n : Nat) (ds : List Char)
    (hds : ∀ c ∈ ds, c ≠ ':' ∧ c.toNat < 256) :
    (∀ c ∈ Nat.toDigitsCore 10 fuel n ds, c ≠ ':' ∧ c.toNat < 256) ∧
    (ds ≠ [] ∨ fuel ≠ 0 → Nat.toDigitsCore 10 fuel n ds ≠ []) := by
  induction fuel generalizing n ds with
  | zero =>
    simp only [Nat.toDigitsCore]
    exact ⟨hds, fun h => h.elim id (fun h0 => absurd rfl h0)⟩
  | succ fuel ih =>
    have hd := digitChar_spec (n % 10) (Nat.mod_lt _ (by decide))
    have hds2 : ∀ c ∈ Nat.digitChar (n % 10) :: ds, c ≠ ':' ∧ c.toNat < 256 := by
      intro c hc
      simp only [List.mem_cons] at hc
      rcases hc with rfl | hc
      · exact hd
      · exact hds c hc
    simp only [Nat.toDigitsCore]
    split
    · exact ⟨hds2, fun _ => by simp⟩
    · exact ⟨(ih (n / 10) _ hds2).1, fun _ => (ih (n / 10) _ hds2).2 (Or.inl (by simp))⟩

theorem Nat_repr_spec (n : Nat) :
    (∀ c ∈ (Nat.repr n).data, c ≠ ':' ∧ c.toNat < 256) ∧ (Nat.repr n).data ≠ [] := by
  have h := toDigitsCore_spec (n + 1) n [] (by simp)
  exact ⟨h.1, h.2 (Or.inr (by simp))⟩

theorem Itoa_spec (p : Int) :
    (∀ c ∈ (Itoa p).data, c ≠ ':' ∧ c.toNat < 256) ∧ (Itoa p).data ≠ [] := by
  cases p with
  | ofNat n => exact Nat_repr_spec n
  | negSucc n =>
    have h := Nat_repr_spec (n + 1)
    refine ⟨fun c hc => ?_, ?_⟩
    · simp only [Itoa, String.data_append, List.mem_append] at hc
      rcases hc with hc | hc
      · have : c = '-' := by simpa using hc
        subst this
        decide
      · exact h.1 c hc
    · simp [Itoa, String.data_append]

theorem JoinHostPort_data (host port : String) :
    (JoinHostPort host port).data =
      if ':' ∈ host.data then '[' :: (host.data ++ ']' :: ':' :: port.data)
      else host.data ++ ':' :: port.data := by
  unfold JoinHostPort
  split <;> simp [String.data_append]

theorem JoinHostPort_spec (a : String) (p : Int) (ha : IsBytes a) :
    JoinHostPort a (Itoa p) ≠ "" ∧ IsBytes (JoinHostPort a (Itoa p)) ∧
      removeEmptyPort (JoinHostPort a (Itoa p)).data = (JoinHostPort a (Itoa p)).data := by
  obtain ⟨hp1, hp2⟩ := Itoa_spec p
  have hlast : ∀ X : List Char, (X ++ ':' :: (Itoa p).data).getLast? ≠ some ':' := by
    intro X e
    rw [show X ++ ':' :: (Itoa p).data = (X ++ [':']) ++ (Itoa p).data by simp,
      List.getLast?_append_of_ne_nil _ hp2] at e
    exact (hp1 _ (List.mem_of_getLast?_eq_some e)).1 rfl
  refine ⟨?_, ?_, ?_⟩
  · intro e
    have := congrArg String.data e
    rw [JoinHostPort_data] at this
    split at this <;> simp at this
  · intro c hc
    unfold IsBytes at ha
    rw [JoinHostPort_data] at hc
    split at hc
    · simp only [List.mem_cons, List.mem_append] at hc
      rcases hc with rfl | hc | rfl | rfl | hc
      · decide
      · exact ha c hc
      · decide
      · decide
      · exact (hp1 c hc).2
    · simp only [List.mem_cons, List.mem_append] at hc
      rcases hc with hc | rfl | hc
      · exact ha c hc
      · decide
      · exact (hp1 c hc).2
  · have hl : (JoinHostPort a (Itoa p)).data.getLast? ≠ some ':' := by
      rw [JoinHostPort_data]
      split
      · rw [show '[' :: (a.data ++ ']' :: ':' :: (Itoa p).data)
            = ('[' :: (a.data ++ [']'])) ++ ':' :: (Itoa p).data by simp]
        exact hlast _
      · exact hlast _
    unfold removeEmptyPort
    simp only [hl, and_false, if_false]

theorem NewRequest_method (method url : String) (r : BackendRequest)
    (h : NewRequest method url = .ok r) :
    r.Method = if method = "" then "GET" else method := by
  unfold NewRequest at h
  by_cases hm : method = ""
  · simp only [hm, if_true] at h ⊢
    split at h
    · cases h
    · split at h
      · cases h
      · simp only [Except.ok.injEq] at h
        subst h
        rfl
  · simp only [hm, if_false] at h ⊢
    split at h
    · cases h
    · split at h
      · cases h
      · simp only [Except.ok.injEq] at h
        subst h
        rfl

/-! ## Claim on the backend request -/

/-- C8, as the code has it: when a GET request resolves to the non-empty
list `addrs` and the port `p`, `http.NewRequest` is called once, with method
GET and the string form of the inbound URL in which the scheme is replaced by
`http` and the host by `net.JoinHostPort` of an element `a` of `addrs` and
the decimal form of `p` (`a:p` when `a` holds no colon, `[a]:p` when it
does).  The request sent downstream, when that call returns one, is the
request it returned, a GET.  When the inbound URL has no opaque part, the URL
of that request has scheme `http`, that host, the inbound path, with a slash
before it when the escaped inbound path is not empty and does not begin with
one, and the inbound query up to its first `#`.  Here `http.NewRequest` is
any function that, when it returns a request, returns the one `NewRequest`
builds, and the inbound path and the addresses are byte strings. -/
theorem ServeHTTP_backend_request (env : Env) (hdr : Header) (req : Request) (m : Metrics)
    (svcName : NamespacedName) (addrs : List String) (p : Int)
    (hm : req.Method = MethodGet) (hd : decodeHost req.Host = some svcName)
    (hres : (addrsForServicePort env.b svcName (int32 servePort) m).result = .ok (addrs, p))
    (hne : addrs ≠ [])
    (hlib : ∀ s r, env.newRequest MethodGet s = .ok r → NewRequest MethodGet s = .ok r)
    (hbytes : IsBytes req.URL.Path ∧ ∀ a ∈ addrs, IsBytes a) :
    ∃ a ∈ addrs, ∃ host : String,
      host = (if ':' ∈ a.data then "[" ++ a ++ "]:" ++ Itoa p else a ++ ":" ++ Itoa p) ∧
      constructed (ServeHTTP env (newResponse hdr) req m).trace =
        [("GET", URL.String { req.URL with Scheme := "http", Host := host })] ∧
      downstream (ServeHTTP env (newResponse hdr) req m).trace =
        (match env.newRequest "GET"
            (URL.String { req.URL with Scheme := "http", Host := host }) with
          | .ok r => [r]
          | .error _ => []) ∧
      ∀ r ∈ downstream (ServeHTTP env (newResponse hdr) req m).trace,
        r.Method = "GET" ∧
        (req.URL.Opaque = "" →
          r.URL.Scheme = "http" ∧ r.URL.Host = host ∧
          r.URL.Path = leadingSlash req.URL ++ req.URL.Path ∧
          r.URL.RawQuery = beforeHash req.URL.RawQuery) := by
  obtain ⟨a, ha, hfw⟩ := serveResolved_of_ok env (newResponse hdr) req m svcName addrs p hres hne
  obtain ⟨t1, t2, _⟩ := addrsForServicePort_trace env.b svcName (int32 servePort) m
  have hdown := forwardTo_downstream env (newResponse hdr) req
    (addrsForServicePort env.b svcName (int32 servePort) m) addrs.length svcName a p t1
  have hcons := forwardTo_constructed env (newResponse hdr) req
    (addrsForServicePort env.b svcName (int32 servePort) m) addrs.length svcName a p t2
  rw [ServeHTTP_of_decodeHost env _ req m svcName hm hd, hfw]
  refine ⟨a, ha, JoinHostPort a (Itoa p), rfl, hcons, hdown, ?_⟩
  intro r hr
  rw [hdown] at hr
  cases hnr : env.newRequest MethodGet (backendURLFor req.URL a p).String with
  | error e =>
    rw [hnr] at hr
    simp at hr
  | ok r2 =>
    rw [hnr] at hr
    simp only [List.mem_singleton] at hr
    subst hr
    have hgo := hlib _ _ hnr
    refine ⟨by simpa [MethodGet] using NewRequest_method _ _ _ hgo, fun hop => ?_⟩
    obtain ⟨j1, j2, j3⟩ := JoinHostPort_spec a p (hbytes.2 a ha)
    obtain ⟨_, k2, k3, k4, k5⟩ :=
      NewRequest_String (backendURLFor req.URL a p) r rfl hop j1 j2 hbytes.1 j3 hgo
    exact ⟨k2, k3, k4, k5⟩

theorem ServeHTTP_backend_request_witness :
    ∃ r ∈ downstream (ServeHTTP (sampleEnv (some sampleService) (some sampleEndpoints) 1)
        (newResponse []) sampleReq zeroMetrics).trace,
      r.Method = "GET" ∧ r.URL.Scheme = "http" ∧
      (∃ a ∈ ["10.0.0.1", "10.0.0.2"], r.URL.Host = a ++ ":8080") ∧
      r.URL.Path = "/p" ∧ r.URL.RawQuery = "q=1" := by
  obtain ⟨a, ha, host, hh, _, _, h⟩ :=
    ServeHTTP_backend_request (sampleEnv (some sampleService) (some sampleEndpoints) 1) []
      sampleReq zeroMetrics { Namespace := "bar", Name := "foo" } ["10.0.0.1", "10.0.0.2"] 8080
      (by decide) (by decide) (by decide) (by decide) (fun _ _ e => e) (by decide)
  have hr : ({ Method := "GET",
               URL := { sampleURL with Scheme := "http", Host := "10.0.0.2:8080" } } :
      BackendRequest) ∈
      downstream (ServeHTTP (sampleEnv (some sampleService) (some sampleEndpoints) 1)
        (newResponse []) sampleReq zeroMetrics).trace := by decide
  obtain ⟨h1, h2⟩ := h _ hr
  obtain ⟨h3, h4, h5, h6⟩ := h2 (by decide)
  refine ⟨_, hr, h1, h3, ⟨a, ha, ?_⟩, ?_, ?_⟩
  · rw [h4, hh]
    simp only [List.mem_cons, List.mem_singleton, List.mem_nil_iff, or_false] at ha
    rcases ha with rfl | rfl <;> decide
  · rw [h5]
    decide
  · rw [h6]
    decide

/-- C8 fails as stated, at four inputs (service `foo` in `bar` with port 80
named `http`).  With the endpoint address `::1` on port 8080 the downstream
host is `[::1]:8080`, which is not `a:p` for a resolved address.  With the
endpoints of the sample and the inbound query `q=1#x` the downstream query is
`q=1`.  With the inbound URL `mailto:x` the downstream URL is `http:x`, with
no host.  With the inbound path `p` the downstream path is `/p`. -/
theorem ServeHTTP_backend_request_differs :
    (downstream (ServeHTTP
        (sampleEnv (some sampleService)
          (some { Subsets := [{ Addresses := [{ IP := "::1" }],
                                Ports := [{ Name := "http", Port := 8080 }] }] }) 0)
        (newResponse []) sampleReq zeroMetrics).trace =
          [{ Method := "GET",
             URL := { sampleURL with Scheme := "http", Host := "[::1]:8080" } }] ∧
      ∀ a ∈ ["::1"], ("[::1]:8080" : String) ≠ a ++ ":" ++ Itoa 8080) ∧
    downstream (ServeHTTP (sampleEnv (some sampleService) (some sampleEndpoints) 1)
        (newResponse []) { sampleReq with URL := { sampleURL with RawQuery := "q=1#x" } }
        zeroMetrics).trace =
      [{ Method := "GET",
         URL := { sampleURL with
                  Scheme := "http", Host := "10.0.0.2:8080", RawQuery := "q=1",
                  Fragment := "x" } }] ∧
    downstream (ServeHTTP (sampleEnv (some sampleService) (some sampleEndpoints) 1)
        (newResponse [])
        { sampleReq with URL := { emptyURL with Scheme := "mailto", Opaque := "x" } }
        zeroMetrics).trace =
      [{ Method := "GET", URL := { emptyURL with Scheme := "http", Opaque := "x" } }] ∧
    downstream (ServeHTTP (sampleEnv (some sampleService) (some sampleEndpoints) 1)
        (newResponse []) { sampleReq with URL := { emptyURL with Path := "p" } }
        zeroMetrics).trace =
      [{ Method := "GET",
         URL := { emptyURL with Scheme := "http", Host := "10.0.0.2:8080", Path := "/p" } }] := by
  decide

/-! ## The paths of `ServeHTTP` -/

theorem ServeHTTP_cases (env : Env) (resp : ResponseWriter) (req : Request) (m : Metrics) :
    (ServeHTTP env resp req m).trace = [] ∧ (ServeHTTP env resp req m).metrics = m ∨
    ∃ svcName, decodeHost req.Host = some svcName ∧
      ((ServeHTTP env resp req m).trace =
          (addrsForServicePort env.b svcName (int32 servePort) m).trace ∧
        (ServeHTTP env resp req m).metrics =
          (addrsForServicePort env.b svcName (int32 servePort) m).metrics ∨
       (ServeHTTP env resp req m).trace =
          (addrsForServicePort env.b svcName (int32 servePort) m).trace ++
            [Event.randIntn 0] ∧
        (ServeHTTP env resp req m).metrics =
          (addrsForServicePort env.b svcName (int32 servePort) m).metrics ∨
       ∃ addrs a p, ServeHTTP env resp req m =
          forwardTo env resp req (addrsForServicePort env.b svcName (int32 servePort) m)
            addrs svcName a p) := by
  by_cases hm : req.Method = MethodGet
  · cases hd : decodeHost req.Host with
    | none =>
      rw [ServeHTTP_of_decodeHost_none env resp req m hm hd]
      exact Or.inl ⟨rfl, rfl⟩
    | some svcName =>
      refine Or.inr ⟨svcName, rfl, ?_⟩
      rw [ServeHTTP_of_decodeHost env resp req m svcName hm hd]
      cases hres : (addrsForServicePort env.b svcName (int32 servePort) m).result with
      | error e =>
        rw [serveResolved_of_error env resp req m svcName e hres]
        exact Or.inl ⟨rfl, rfl⟩
      | ok v =>
        obtain ⟨addrs, p⟩ := v
        by_cases hne : addrs = []
        · subst hne
          rw [serveResolved_of_empty env resp req m svcName p hres]
          exact Or.inr (Or.inl ⟨rfl, rfl⟩)
        · obtain ⟨a, _, h⟩ := serveResolved_of_ok env resp req m svcName addrs p hres hne
          exact Or.inr (Or.inr ⟨addrs.length, a, p, h⟩)
  · left
    simp [ServeHTTP, hm]

/-! ## Header copying -/

theorem Header.get_set_same (h : Header) (k : String) (v : List String) :
    Header.get (Header.set h k v) k = some v := by
  induction h with
  | nil => simp [Header.set, Header.get]
  | cons e t ih =>
    obtain ⟨k1, v1⟩ := e
    by_cases hk : k1 = k
    · simp [Header.set, Header.get, hk]
    · simp [Header.set, Header.get, hk, ih]

theorem Header.get_set_other (h : Header) (k k2 : String) (v : List String) (hne : k ≠ k2) :
    Header.get (Header.set h k v) k2 = Header.get h k2 := by
  induction h with
  | nil => simp [Header.set, Header.get, hne]
  | cons e t ih =>
    obtain ⟨k1, v1⟩ := e
    by_cases hk : k1 = k
    · subst hk
      simp [Header.set, Header.get, hne]
    · by_cases hk2 : k1 = k2
      · subst hk2
        simp [Header.set, Header.get, hk]
      · simp [Header.set, Header.get, hk, hk2, ih]

theorem Header.get_eq_none_of_not_mem (h : Header) (k : String)
    (hk : k ∉ h.map Prod.fst) : Header.get h k = none := by
  induction h with
  | nil => rfl
  | cons e t ih =>
    obtain ⟨k1, v1⟩ := e
    simp only [List.map_cons, List.mem_cons, not_or] at hk
    have h1 : k1 ≠ k := fun e => hk.1 e.symm
    simp [Header.get, h1, ih hk.2]

theorem copyHeaders_get_of_none (headers backendHeaders : Header) (k : String)
    (hk : Header.get backendHeaders k = none) :
    Header.get (copyHeaders headers backendHeaders) k = Header.get headers k := by
  unfold copyHeaders
  induction backendHeaders generalizing headers with
  | nil => rfl
  | cons e t ih =>
    obtain ⟨k1, v1⟩ := e
    by_cases h1 : k1 = k
    · simp [Header.get, h1] at hk
    · simp only [Header.get, h1, if_false] at hk
      simp only [List.foldl_cons]
      rw [ih _ hk, Header.get_set_other _ _ _ _ h1]

theorem copyHeaders_get_of_some (headers backendHeaders : Header) (k : String)
    (v : List String) (hwf : Header.WF backendHeaders)
    (hk : Header.get backendHeaders k = some v) :
    Header.get (copyHeaders headers backendHeaders) k = some v := by
  induction backendHeaders generalizing headers with
  | nil => simp [Header.get] at hk
  | cons e t ih =>
    obtain ⟨k1, v1⟩ := e
    have hnd : k1 ∉ t.map Prod.fst ∧ Header.WF t := by
      simpa [Header.WF] using hwf
    by_cases h1 : k1 = k
    · subst h1
      simp only [Header.get, if_true, Option.some.injEq] at hk
      subst hk
      have := copyHeaders_get_of_none (Header.set headers k1 v1) t k1
        (Header.get_eq_none_of_not_mem t k1 hnd.1)
      simpa [copyHeaders, Header.get_set_same] using this
    · simp only [Header.get, h1, if_false] at hk
      have := ih (Header.set headers k1 v1) hnd.2 hk
      simpa [copyHeaders] using this

/-! ## Mirroring the backend response -/

theorem forwardTo_of_response (env : Env) (resp : ResponseWriter) (req : Request)
    (r : Resolution) (n : Nat) (svcName : NamespacedName) (a : String) (p : Int)
    (x : BackendRequest) (backendResp : BackendResponse)
    (hr : downstream r.trace = [])
    (hx : x ∈ downstream (forwardTo env resp req r n svcName a p).trace)
    (hok : env.clientDo x = .ok backendResp) :
    (forwardTo env resp req r n svcName a p).resp =
      (ResponseWriter.WriteHeader
        { resp with header := copyHeaders resp.header backendResp.Header }
        backendResp.StatusCode).Write backendResp.Body := by
  rw [forwardTo_downstream env resp req r n svcName a p hr] at hx
  unfold forwardTo
  split
  · rename_i e he
    simp [he] at hx
  · rename_i backendReq he
    simp only [he, List.mem_singleton] at hx
    subst hx
    simp only [hok]

/-- C9: when the downstream call of a handling came back with the response
`backendResp`, the outbound header map holds, for every key of the backend
header map, exactly the backend value list (a value already there is
replaced), every other key reads as it did in the initial map `hdr`, and the
status written is the backend status code. -/
theorem ServeHTTP_mirrors_response (env : Env) (hdr : Header) (req : Request) (m : Metrics)
    (x : BackendRequest) (backendResp : BackendResponse)
    (hx : x ∈ downstream (ServeHTTP env (newResponse hdr) req m).trace)
    (hok : env.clientDo x = .ok backendResp)
    (hwf : Header.WF backendResp.Header) :
    (∀ k v, Header.get backendResp.Header k = some v →
      Header.get (ServeHTTP env (newResponse hdr) req m).resp.header k = some v) ∧
    (∀ k, Header.get backendResp.Header k = none →
      Header.get (ServeHTTP env (newResponse hdr) req m).resp.header k = Header.get hdr k) ∧
    (ServeHTTP env (newResponse hdr) req m).resp.status = some backendResp.StatusCode := by
  rcases ServeHTTP_cases env (newResponse hdr) req m with
    ⟨ht, _⟩ | ⟨svcName, _, ⟨ht, _⟩ | ⟨ht, _⟩ | ⟨addrs, a, p, hf⟩⟩
  · rw [ht] at hx
    simp [downstream] at hx
  · rw [ht, (addrsForServicePort_trace _ _ _ _).1] at hx
    simp at hx
  · rw [ht, downstream_append, (addrsForServicePort_trace _ _ _ _).1] at hx
    simp [downstream] at hx
  · rw [hf] at hx
    have hresp := forwardTo_of_response env (newResponse hdr) req _ addrs svcName a p x
      backendResp (addrsForServicePort_trace _ _ _ _).1 hx hok
    rw [hf, hresp]
    refine ⟨fun k v hk => ?_, fun k hk => ?_, ?_⟩
    · simpa [ResponseWriter.Write, ResponseWriter.WriteHeader, newResponse] using
        copyHeaders_get_of_some hdr backendResp.Header k v hwf hk
    · simpa [ResponseWriter.Write, ResponseWriter.WriteHeader, newResponse] using
        copyHeaders_get_of_none hdr backendResp.Header k hk
    · simp [ResponseWriter.Write, ResponseWriter.WriteHeader, newResponse]

theorem ServeHTTP_mirrors_response_witness :
    Header.get (ServeHTTP (sampleEnv (some sampleService) (some sampleEndpoints) 1)
      (newResponse [("Content-Type", ["text/html"]), ("X-Keep", ["1"])])
      sampleReq zeroMetrics).resp.header "Content-Type" = some ["text/plain"] ∧
    Header.get (ServeHTTP (sampleEnv (some sampleService) (some sampleEndpoints) 1)
      (newResponse [("Content-Type", ["text/html"]), ("X-Keep", ["1"])])
      sampleReq zeroMetrics).resp.header "X-Keep" = some ["1"] ∧
    (ServeHTTP (sampleEnv (some sampleService) (some sampleEndpoints) 1)
      (newResponse [("Content-Type", ["text/html"]), ("X-Keep", ["1"])])
      sampleReq zeroMetrics).resp.status = some 200 :=
  have h := ServeHTTP_mirrors_response
    (sampleEnv (some sampleService) (some sampleEndpoints) 1)
    [("Content-Type", ["text/html"]), ("X-Keep", ["1"])] sampleReq zeroMetrics
    { Method := "GET", URL := { sampleURL with Scheme := "http", Host := "10.0.0.2:8080" } }
    sampleBackendResponse (by decide) (by decide) (by simp [Header.WF, sampleBackendResponse])
  ⟨h.1 "Content-Type" ["text/plain"] (by decide),
    (h.2.1 "X-Keep" (by decide)).trans (by decide), h.2.2⟩

/-! ## Metrics -/

theorem addrsForServicePort_requestLatency (b : endpointsBalancer) (svcName : NamespacedName)
    (port : Int) (m : Metrics) :
    (addrsForServicePort b svcName port m).metrics.requestLatency = m.requestLatency := rfl

theorem forwardTo_requestLatency (env : Env) (resp : ResponseWriter) (req : Request)
    (r : Resolution) (k : Nat) (svcName : NamespacedName) (a : String) (p : Int)
    (hr : downstream r.trace = []) (s n : String) :
    (forwardTo env resp req r k svcName a p).metrics.requestLatency s n =
      r.metrics.requestLatency s n +
        (if respondedOk env (forwardTo env resp req r k svcName a p).trace = true ∧
            s = svcName.Name ∧ n = svcName.Namespace then 1 else 0) := by
  unfold respondedOk
  rw [forwardTo_downstream env resp req r k svcName a p hr]
  unfold forwardTo
  split
  · rename_i e he
    simp [he]
  · rename_i backendReq he
    split
    · rename_i e hd
      simp [he, hd, Except.toBool]
    · rename_i backendResp hd
      simp only [he, hd, List.any_cons, List.any_nil,
        Except.toBool, Bool.or_false, true_and, Metrics.observeRequest]
      split <;> rfl

/-- C10: one call of `addrsForServicePort`, whether it returns an error or a
result, adds exactly one sample to `resolve_latency_seconds` under the labels
of the service name and namespace and none under other labels, and leaves
`request_latency_seconds` alone; one handling by `ServeHTTP` adds exactly one
sample to `request_latency_seconds`, under the labels of the decoded identity,
when its downstream call came back with a response, and none on every other
path. -/
theorem metrics_sample_counts (env : Env) (hdr : Header) (req : Request)
    (svcName : NamespacedName) (port : Int) (m : Metrics) (s n : String) :
    (addrsForServicePort env.b svcName port m).metrics.resolveLatency s n =
      m.resolveLatency s n + (if s = svcName.Name ∧ n = svcName.Namespace then 1 else 0) ∧
    (addrsForServicePort env.b svcName port m).metrics.requestLatency s n =
      m.requestLatency s n ∧
    (ServeHTTP env (newResponse hdr) req m).metrics.requestLatency s n =
      m.requestLatency s n +
        (if respondedOk env (ServeHTTP env (newResponse hdr) req m).trace = true ∧
            decodeHost req.Host = some { Namespace := n, Name := s } then 1 else 0) := by
  refine ⟨?_, rfl, ?_⟩
  · simp only [addrsForServicePort, Metrics.observeResolve]
    split <;> rfl
  · rcases ServeHTTP_cases env (newResponse hdr) req m with
      ⟨ht, hmet⟩ | ⟨id, _, ⟨ht, hmet⟩ | ⟨ht, hmet⟩ | ⟨addrs, a, p, hf⟩⟩
    · simp [ht, hmet, respondedOk, downstream]
    · simp [ht, hmet, respondedOk, (addrsForServicePort_trace _ _ _ _).1,
        addrsForServicePort_requestLatency]
    · simp [ht, hmet, respondedOk, downstream_append, (addrsForServicePort_trace _ _ _ _).1,
        addrsForServicePort_requestLatency, downstream]
    · rename_i hdec
      rw [hf, forwardTo_requestLatency env _ req _ addrs id a p
        (addrsForServicePort_trace _ _ _ _).1 s n, addrsForServicePort_requestLatency, hdec]
      have hiff : (some id = some ({ Namespace := n, Name := s } : NamespacedName)) ↔
          (s = id.Name ∧ n = id.Namespace) := by
        cases id
        simp only [Option.some.injEq, NamespacedName.mk.injEq]
        constructor
        · rintro ⟨h1, h2⟩
          exact ⟨h2.symm, h1.symm⟩
        · rintro ⟨h1, h2⟩
          exact ⟨h2.symm, h1.symm⟩
      simp only [hiff]

end Balancer

